import Mathlib

/-!
Shallow embedding of the FlowTracking WhatsApp receipt backend
(`wa-server.js`) used to check the claims of the natural-language
specification against the code.

Modelling conventions:
- Every number the embedded code manipulates is an exact decimal; we model
  JavaScript numbers by the type `Dec` of decimals `n * 10 ^ (-e)` (so that
  all arithmetic is kernel-computable), with value semantics `Dec.toRat`.
  `null` / `NaN` / absent is `none : Option Dec`.
- Strings are `String` / `List Char`.
- Each concrete regular expression of the source is implemented as a
  dedicated matching function with JavaScript semantics: ordered
  alternation, greedy quantifiers with backtracking where the pattern
  needs it, `exec`-style scans restarting at the end of the previous
  match, `\b` word boundaries.
- External I/O (Supabase, Tesseract, sharp, WhatsApp client) is
  abstracted: OCR results and image-tile readings are oracle inputs,
  persistence is a small state record.
-/

namespace WA

/-- An exact decimal `n * 10 ^ (-e)`: the JavaScript numbers produced by the
embedded parsing code. -/
structure Dec where
  n : ℤ
  e : ℕ
deriving DecidableEq

/-- Value of a `Dec` as a rational. -/
def Dec.toRat (d : Dec) : ℚ := (d.n : ℚ) / (10 : ℚ) ^ d.e

instance : LT Dec := ⟨fun a b => a.n * (10 : ℤ) ^ b.e < b.n * (10 : ℤ) ^ a.e⟩

instance : LE Dec := ⟨fun a b => a.n * (10 : ℤ) ^ b.e ≤ b.n * (10 : ℤ) ^ a.e⟩

instance Dec.decLt (a b : Dec) : Decidable (a < b) :=
  inferInstanceAs (Decidable (a.n * (10 : ℤ) ^ b.e < b.n * (10 : ℤ) ^ a.e))

instance Dec.decLe (a b : Dec) : Decidable (a ≤ b) :=
  inferInstanceAs (Decidable (a.n * (10 : ℤ) ^ b.e ≤ b.n * (10 : ℤ) ^ a.e))

theorem Dec.lt_iff_toRat (a b : Dec) : a < b ↔ a.toRat < b.toRat := by
  show a.n * (10 : ℤ) ^ b.e < b.n * (10 : ℤ) ^ a.e ↔ _
  rw [Dec.toRat, Dec.toRat,
    div_lt_div_iff₀ (by positivity) (by positivity), ← Int.cast_lt (R := ℚ)]
  push_cast
  exact Iff.rfl

theorem Dec.le_iff_toRat (a b : Dec) : a ≤ b ↔ a.toRat ≤ b.toRat := by
  show a.n * (10 : ℤ) ^ b.e ≤ b.n * (10 : ℤ) ^ a.e ↔ _
  rw [Dec.toRat, Dec.toRat,
    div_le_div_iff₀ (by positivity) (by positivity), ← Int.cast_le (R := ℚ)]
  push_cast
  exact Iff.rfl

/-- A whole number as a `Dec`. -/
def Dec.ofInt (n : ℤ) : Dec := ⟨n, 0⟩

theorem Dec.toRat_ofInt (n : ℤ) : (Dec.ofInt n).toRat = (n : ℚ) := by
  simp [Dec.toRat, Dec.ofInt]

/-- Multiplication by 1000 (`amount * 1000` of the source). -/
def Dec.mul1000 (d : Dec) : Dec := ⟨d.n * 1000, d.e⟩

theorem Dec.toRat_mul1000 (d : Dec) : d.mul1000.toRat = 1000 * d.toRat := by
  simp only [Dec.toRat, Dec.mul1000]
  push_cast
  ring

/-- `Math.max`-style pick between two decimals (used on equal values the two
arguments denote the same JavaScript float, so either representative is
faithful). -/
def Dec.maxD (a b : Dec) : Dec := if a < b then b else a

/-- U+00A0 no-break space (`NBSP` of the source). -/
def nbspC : Char := Char.ofNat 160

/-- U+202F narrow no-break space (`NNSP` of the source). -/
def nnspC : Char := Char.ofNat 8239

/-- The JavaScript regex class `\s` (whitespace). -/
def jsWs (c : Char) : Bool :=
  c == ' ' || c == '\t' || c == '\n' || c == '\r' ||
  c.toNat == 11 || c.toNat == 12 || c == nbspC || c == nnspC ||
  c.toNat == 0x1680 || (decide (0x2000 ≤ c.toNat) && decide (c.toNat ≤ 0x200A)) ||
  c.toNat == 0x2028 || c.toNat == 0x2029 || c.toNat == 0x205F ||
  c.toNat == 0x3000 || c.toNat == 0xFEFF

/-- The JavaScript regex class `\w` = `[A-Za-z0-9_]`. -/
def jsWord (c : Char) : Bool :=
  c.isAlpha || c.isDigit || c == '_'

/-- `[1-9]`. -/
def isNonZeroDigit (c : Char) : Bool :=
  c.isDigit && c != '0'

/-- Case folding as used by the `/i` regex flag on the characters that occur
in the source's patterns and inputs (ASCII plus Spanish accented capitals). -/
def jsLower (c : Char) : Char :=
  if c.isUpper then Char.ofNat (c.toNat + 32)
  else if c == 'Á' then 'á'
  else if c == 'É' then 'é'
  else if c == 'Í' then 'í'
  else if c == 'Ó' then 'ó'
  else if c == 'Ú' then 'ú'
  else if c == 'Ñ' then 'ñ'
  else if c == 'Ü' then 'ü'
  else c

def lowerL (cs : List Char) : List Char := cs.map jsLower

def digitVal (c : Char) : ℕ := c.toNat - '0'.toNat

def natOfDigits (ds : List Char) : ℕ :=
  ds.foldl (fun a c => 10 * a + digitVal c) 0

/-- JavaScript `parseFloat` on the character material reaching it here
(digits, dots, commas): longest prefix of the form `digits ['.' digits]`;
`none` models `NaN`. -/
def parseFloatPrefix (cs : List Char) : Option Dec :=
  let ds1 := cs.takeWhile Char.isDigit
  let rest := cs.dropWhile Char.isDigit
  match rest with
  | '.' :: rest2 =>
      let ds2 := rest2.takeWhile Char.isDigit
      if ds1.isEmpty && ds2.isEmpty then none
      else some ⟨(natOfDigits ds1 * 10 ^ ds2.length + natOfDigits ds2 : ℕ), ds2.length⟩
  | _ => if ds1.isEmpty then none else some ⟨(natOfDigits ds1 : ℕ), 0⟩

/-- `(?<=\d)[oO](?=\d)` → `0`: OCR repair, matching against the original
neighbours (JavaScript replace scans the original string). -/
def ocrOFixAux : Option Char → List Char → List Char
  | _, [] => []
  | prev, c :: rest =>
      let repl := (c == 'o' || c == 'O') &&
        (match prev with | some p => p.isDigit | none => false) &&
        (match rest.head? with | some n => n.isDigit | none => false)
      (if repl then '0' else c) :: ocrOFixAux (some c) rest

def isOChar (c : Char) : Bool := c == 'o' || c == 'O'

/-- One position of `[.,](?:0{3}|0{2}[oO]|0[oO]0|[oO]0{2})(?!\d)`. -/
def tripleZeroAt : List Char → Bool
  | s :: a :: b :: c :: rest =>
      (s == '.' || s == ',') &&
      ((a == '0' && b == '0' && c == '0') ||
       (a == '0' && b == '0' && isOChar c) ||
       (a == '0' && isOChar b && c == '0') ||
       (isOChar a && b == '0' && c == '0')) &&
      (match rest.head? with | some d => !d.isDigit | none => true)
  | _ => false

/-- `RE_TRIPLE_ZERO_HINT` / `hasOcrTripleZero` of the source. -/
def hasOcrTripleZero : List Char → Bool
  | [] => false
  | c :: rest => tripleZeroAt (c :: rest) || hasOcrTripleZero rest

/-- `/\.0{3,}\b/`: a dot followed by at least three zeros ending at a word
boundary (only the maximal zero run can satisfy the boundary). -/
def dotZeros3b : List Char → Bool
  | [] => false
  | c :: rest =>
      (c == '.' &&
        (let zs := rest.takeWhile (fun z => z == '0')
         let after := rest.dropWhile (fun z => z == '0')
         decide (3 ≤ zs.length) &&
           (match after.head? with | some d => !jsWord d | none => true)))
      || dotZeros3b rest

def splitOnC (sep : Char) (cs : List Char) : List (List Char) :=
  cs.foldr (fun c acc =>
    match acc with
    | [] => if c == sep then [[], []] else [[c]]
    | g :: gs => if c == sep then [] :: g :: gs else (c :: g) :: gs) [[]]

/-- Structural test of `^\d{1,3}(?:SEP\d{3})+(?:SEP\d{1,2})?$` on the parts
obtained by splitting at SEP. -/
def thousandsShape (parts : List (List Char)) : Bool :=
  match parts with
  | [] => false
  | p0 :: ps =>
    (decide (1 ≤ p0.length) && decide (p0.length ≤ 3) && p0.all Char.isDigit) &&
    match ps.reverse with
    | [] => false
    | lastP :: midsRev =>
        (midsRev.all fun g => decide (g.length = 3) && g.all Char.isDigit) &&
        ((decide (lastP.length = 3) && lastP.all Char.isDigit) ||
         (!midsRev.isEmpty && decide (1 ≤ lastP.length) && decide (lastP.length ≤ 2) &&
          lastP.all Char.isDigit))

def replaceFirstC (a b : Char) : List Char → List Char
  | [] => []
  | c :: cs => if c == a then b :: cs else c :: replaceFirstC a b cs

/-- `toNumberARS` of `wa-server.js` (§4.1 Numeric Normalizer): parse an
Argentine-format numeric token under OCR corruption. -/
def toNumberARSL (original : List Char) : Option Dec :=
  let s0 := ocrOFixAux none original
  let s1 := s0.filter fun c => c.isDigit || c == '.' || c == ',' || c == nbspC || c == nnspC
  let s2 := s1.map fun c => if c == nbspC || c == nnspC then ' ' else c
  let s3 := s2.filter fun c => !jsWs c
  let s4 := s3.dropWhile fun c => c == '.' || c == ','
  let s := (s4.reverse.dropWhile fun c => c == '.' || c == ',').reverse
  if s.isEmpty then none
  else if s.contains '.' && s.contains ',' then
    parseFloatPrefix (replaceFirstC ',' '.' (s.filter fun c => c != '.'))
  else if s.contains ',' then
    let parts := splitOnC ',' s
    if thousandsShape parts then
      match parts.reverse with
      | lastP :: initRev =>
          if lastP.length ≤ 2 then
            parseFloatPrefix ((initRev.reverse).flatten ++ '.' :: lastP)
          else parseFloatPrefix parts.flatten
      | [] => none
    else parseFloatPrefix (replaceFirstC ',' '.' (s.filter fun c => c != '.'))
  else if s.contains '.' then
    let parts := splitOnC '.' s
    match parts.reverse with
    | lastP :: initRev =>
      if hasOcrTripleZero original then parseFloatPrefix (s.filter fun c => c != '.')
      else if lastP.length = 3 then parseFloatPrefix (s.filter fun c => c != '.')
      else if thousandsShape parts then
        parseFloatPrefix ((initRev.reverse).flatten ++ '.' :: lastP)
      else
        match parseFloatPrefix s with
        | some v =>
            some (if v < Dec.ofInt 1000 && dotZeros3b original then v.mul1000 else v)
        | none => none
    | [] => none
  else parseFloatPrefix s

def toNumberARS (s : String) : Option Dec := toNumberARSL s.data

example : toNumberARS "15.000,00" = some ⟨1500000, 2⟩ := by decide

example : toNumberARS "2.345.678,90" = some ⟨234567890, 2⟩ := by decide

example : toNumberARS "150 .000" = some ⟨150000, 0⟩ := by decide

example : toNumberARS "1.000" = some ⟨1000, 0⟩ := by decide

example : toNumberARS "0.5" = some ⟨5, 1⟩ := by decide

example : toNumberARS "" = none := by decide

/-! ### String search primitives (substring, word boundary, `\s*` gaps) -/

def startsWithL : List Char → List Char → Bool
  | [], _ => true
  | _ :: _, [] => false
  | p :: ps, c :: cs => p == c && startsWithL ps cs

def containsL (pat : List Char) : List Char → Bool
  | [] => pat.isEmpty
  | c :: cs => startsWithL pat (c :: cs) || containsL pat cs

/-- Case-insensitive substring test: `pat` is given lowercase. -/
def containsCI (pat : String) (cs : List Char) : Bool :=
  containsL pat.data (lowerL cs)

/-- Boundary `\b` read after a word character: next char non-word or end. -/
def endBoundary (rest : List Char) : Bool :=
  match rest.head? with
  | some d => !jsWord d
  | none => true

/-- Boundary `\b` read before a word character: previous char non-word or none. -/
def boundaryPrev (prev : Option Char) : Bool :=
  match prev with
  | some p => !jsWord p
  | none => true

/-- `A\s*B` where `B` starts with a non-whitespace character (so only the
maximal whitespace gap can match), case-insensitive; `a`, `b` lowercase. -/
def containsGapCIAux (a b : List Char) : List Char → Bool
  | [] => false
  | c :: cs =>
      (startsWithL a (c :: cs) &&
        startsWithL b (((c :: cs).drop a.length).dropWhile jsWs)) ||
      containsGapCIAux a b cs

def containsGapCI (a b : String) (cs : List Char) : Bool :=
  containsGapCIAux a.data b.data (lowerL cs)

/-- `W\b`: an occurrence of `w` whose end is at a word boundary (the pattern
has no boundary on the left); case-insensitive, `w` lowercase. -/
def containsWordBCIAux (w : List Char) : List Char → Bool
  | [] => w.isEmpty
  | c :: cs =>
      (startsWithL w (c :: cs) && endBoundary ((c :: cs).drop w.length)) ||
      containsWordBCIAux w cs

def containsWordBCI (w : String) (cs : List Char) : Bool :=
  containsWordBCIAux w.data (lowerL cs)

def jsTrim (cs : List Char) : List Char :=
  ((cs.dropWhile jsWs).reverse.dropWhile jsWs).reverse

/-! ### The grouped/long number regexes

All four grouped-amount regexes of the source share one shape,
`[1-9]\d{0,2}(?:SEP\d{3})+` with an optional long alternative `[1-9]\d{4,}`,
an optional 1-2 digit decimal tail and a trailing `\b`; they differ in the
separator class, the tail class, a leading `\b` and an optional `\$?\s*`
prefix.  `matchGroupedAt` implements one attempt at a fixed position with
the regex engine's ordered backtracking; the scan functions implement
`exec` loops. -/

structure GCfg where
  dollarPrefix : Bool
  leadBoundary : Bool
  sepP : Char → Bool
  allowLong : Bool
  tailP : Char → Bool

/-- States after 1, 2, ... repetitions of `(?:SEP\d{3})`, each as
(consumed characters, rest). -/
def sepGroupChain (sepP : Char → Bool) : List Char → List (List Char × List Char)
  | s :: a :: b :: c :: rest =>
      if sepP s && a.isDigit && b.isDigit && c.isDigit then
        ([s, a, b, c], rest) ::
          (sepGroupChain sepP rest).map (fun p => ([s, a, b, c] ++ p.1, p.2))
      else []
  | _ => []

/-- Options for `(?:TAIL\d{1,2})?` in greedy order: longest first, then the
empty option. -/
def tailOptions (tailP : Char → Bool) (cs : List Char) : List (List Char × List Char) :=
  match cs with
  | s :: a :: rest =>
      if tailP s && a.isDigit then
        match rest with
        | b :: rest2 =>
            if b.isDigit then [([s, a, b], rest2), ([s, a], b :: rest2), ([], cs)]
            else [([s, a], rest), ([], cs)]
        | [] => [([s, a], rest), ([], cs)]
      else [([], cs)]
  | _ => [([], cs)]

/-- Options for `[0-9]{0,2}` (the extra digits after the first) in greedy
order. -/
def extraDigitOptions (cs : List Char) : List (List Char × List Char) :=
  match cs with
  | a :: b :: rest =>
      if a.isDigit && b.isDigit then [([a, b], rest), ([a], b :: rest), ([], cs)]
      else if a.isDigit then [([a], b :: rest), ([], cs)]
      else [([], cs)]
  | [a] => if a.isDigit then [([a], []), ([], [a])] else [([], [a])]
  | [] => [([], [])]

/-- One attempt of alternative 1, `[1-9]\d{0,2}(?:SEP\d{3})+`, at a position
whose first character `d1` is already checked to be `[1-9]`.  Returns
(capture group, full match, rest) for the first backtracking choice whose
optional tail and trailing `\b` succeed. -/
def alt1Match (cfg : GCfg) (d1 : Char) (cs : List Char) :
    Option (List Char × List Char × List Char) :=
  (extraDigitOptions cs).findSome? fun de =>
    ((sepGroupChain cfg.sepP de.2).reverse).findSome? fun gr =>
      (tailOptions cfg.tailP gr.2).findSome? fun tl =>
        if endBoundary tl.2 then
          some (d1 :: de.1 ++ gr.1, d1 :: de.1 ++ gr.1 ++ tl.1, tl.2)
        else none

/-- One attempt of alternative 2, `[1-9]\d{4,}`, greedy with backtracking on
the run length. -/
def alt2Match (cfg : GCfg) (d1 : Char) (cs : List Char) :
    Option (List Char × List Char × List Char) :=
  let run := cs.takeWhile Char.isDigit
  let total := run.length + 1
  if total < 5 then none
  else
    ((List.range (total - 4)).map (fun i => total - i)).findSome? fun len =>
      let core := d1 :: run.take (len - 1)
      let rest := (d1 :: cs).drop len
      (tailOptions cfg.tailP rest).findSome? fun tl =>
        if endBoundary tl.2 then some (core, core ++ tl.1, tl.2) else none

/-- A successful grouped-number match: capture group (`m[1]`), full match
(`m[0]`), last consumed character, rest of the input. -/
structure GMatch where
  core : List Char
  full : List Char
  last : Option Char
  rest : List Char

/-- One match attempt of a grouped-number regex at a fixed position. -/
def matchGroupedAt (cfg : GCfg) (prev : Option Char) (cs : List Char) : Option GMatch :=
  let pfx : List Char × Option Char × List Char :=
    if cfg.dollarPrefix then
      match cs with
      | '$' :: r1 =>
          ('$' :: r1.takeWhile jsWs,
            ((('$' :: r1.takeWhile jsWs).getLast?).elim prev some),
            r1.dropWhile jsWs)
      | _ =>
          (cs.takeWhile jsWs,
            (((cs.takeWhile jsWs).getLast?).elim prev some),
            cs.dropWhile jsWs)
    else ([], prev, cs)
  match pfx with
  | (pc, prev1, cs1) =>
    match cs1 with
    | d :: rest =>
        if isNonZeroDigit d && (!cfg.leadBoundary || boundaryPrev prev1) then
          match alt1Match cfg d rest with
          | some (core, full, r) =>
              some ⟨core, pc ++ full, (pc ++ full).getLast?, r⟩
          | none =>
              if cfg.allowLong then
                match alt2Match cfg d rest with
                | some (core, full, r) =>
                    some ⟨core, pc ++ full, (pc ++ full).getLast?, r⟩
                | none => none
              else none
        else none
    | [] => none

/-- Fuelled `exec` loop collecting all matches of a grouped-number regex;
called with fuel = length of the input, which suffices because every match
consumes at least one character. -/
def scanGrouped (cfg : GCfg) : ℕ → Option Char → List Char → List (List Char × List Char)
  | 0, _, _ => []
  | _ + 1, _, [] => []
  | n + 1, prev, c :: cs =>
      match matchGroupedAt cfg prev (c :: cs) with
      | some m => (m.core, m.full) :: scanGrouped cfg n m.last m.rest
      | none => scanGrouped cfg n (some c) cs

def groupedMatches (cfg : GCfg) (cs : List Char) : List (List Char × List Char) :=
  scanGrouped cfg cs.length none cs

/-- Existence of a match (`RegExp.test`). -/
def firstGrouped (cfg : GCfg) : Option Char → List Char → Option (List Char × List Char)
  | _, [] => none
  | prev, c :: cs =>
      match matchGroupedAt cfg prev (c :: cs) with
      | some m => some (m.core, m.full)
      | none => firstGrouped cfg (some c) cs

/-- `RE_GROUPED_OR_LONG` of `findBestAmount`:
`\b([1-9][0-9]{0,2}(?:[.,\s NBSP NNSP][0-9]{3})+|[1-9][0-9]{4,})(?:[.,]\d{1,2})?\b`. -/
def cfgFBA : GCfg :=
  ⟨false, true, (fun c => c == '.' || c == ',' || jsWs c), true, (fun c => c == '.' || c == ',')⟩

/-- `RE_GROUPED` of the pipeline safety rule:
`\$?\s*([1-9]\d{0,2}(?:[.\s NBSP NNSP]\d{3})+)(?:[.,]\d{1,2})?\b`. -/
def cfgSafety : GCfg :=
  ⟨true, false, (fun c => c == '.' || jsWs c), false, (fun c => c == '.' || c == ',')⟩

/-- The scorer's grouped-thousands pattern:
`\b[1-9]\d{0,2}(?:[.\s NBSP NNSP]\d{3})+(?:[,.\s]\d{1,2})?\b`. -/
def cfgThousands : GCfg :=
  ⟨false, true, (fun c => c == '.' || jsWs c), false, (fun c => c == '.' || c == ',' || jsWs c)⟩

/-- `RE_GROUP` of the tiled visual fallback:
`\b([1-9][0-9]{0,2}(?:[.\s NBSP NNSP][0-9]{3})+|[1-9][0-9]{4,})(?:[.,]\d{1,2})?\b`. -/
def cfgTile : GCfg :=
  ⟨false, true, (fun c => c == '.' || jsWs c), true, (fun c => c == '.' || c == ',')⟩

/-! ### Normalization used by `findBestAmount` -/

def stripCR (cs : List Char) : List Char := cs.filter fun c => c != '\r'

/-- `[‘’´`] → '` and `[“”] → "`. -/
def quoteFix (cs : List Char) : List Char :=
  cs.map fun c =>
    if c.toNat == 8216 || c.toNat == 8217 || c.toNat == 180 || c.toNat == 96 then
      Char.ofNat 39
    else if c.toNat == 8220 || c.toNat == 8221 then '"'
    else c

/-- `[NBSP NNSP] → " "`. -/
def nbspFix (cs : List Char) : List Char :=
  cs.map fun c => if c == nbspC || c == nnspC then ' ' else c

/-- `S\s*\$ → "$"` (global, case-insensitive); fuelled with the input
length (every step consumes at least one character). -/
def replSDollarF : ℕ → List Char → List Char
  | 0, cs => cs
  | _, [] => []
  | n + 1, c :: cs' =>
      if c == 'S' || c == 's' then
        match cs'.dropWhile jsWs with
        | '$' :: r2 => '$' :: replSDollarF n r2
        | _ => c :: replSDollarF n cs'
      else c :: replSDollarF n cs'

def replSDollar (cs : List Char) : List Char := replSDollarF cs.length cs

/-- `\bS\s*([0-9]) → "$$1"` (global, case-insensitive).  In JavaScript the
replacement string `"$$1"` is an escaped dollar followed by a LITERAL `1`
(not capture group 1), so the matched digit is replaced by the digit `1`;
the embedding reproduces this faithfully. -/
def replSDigitF : ℕ → Option Char → List Char → List Char
  | 0, _, cs => cs
  | _, _, [] => []
  | n + 1, prev, c :: cs' =>
      if (c == 'S' || c == 's') && boundaryPrev prev then
        match cs'.dropWhile jsWs with
        | d :: r2 =>
            if d.isDigit then '$' :: '1' :: replSDigitF n (some d) r2
            else c :: replSDigitF n (some c) cs'
        | [] => c :: replSDigitF n (some c) cs'
      else c :: replSDigitF n (some c) cs'

def replSDigit (cs : List Char) : List Char := replSDigitF cs.length none cs

/-- `ARS\s* → "$"`, with or without a leading `\b` (the two normalizers of
the source differ in exactly this). -/
def replARSF (requireB : Bool) : ℕ → Option Char → List Char → List Char
  | 0, _, cs => cs
  | _, _, [] => []
  | n + 1, prev, a :: cs' =>
      if (a == 'A' || a == 'a') && (!requireB || boundaryPrev prev) then
        match cs' with
        | b :: c :: r2 =>
            if (b == 'R' || b == 'r') && (c == 'S' || c == 's') then
              '$' :: replARSF requireB n
                (some (((r2.takeWhile jsWs).getLast?).getD c)) (r2.dropWhile jsWs)
            else a :: replARSF requireB n (some a) cs'
        | _ => a :: replARSF requireB n (some a) cs'
      else a :: replARSF requireB n (some a) cs'

def replARS (requireB : Bool) (cs : List Char) : List Char :=
  replARSF requireB cs.length none cs

/-- The pre-normalization of `findBestAmount`. -/
def fbaNorm (cs : List Char) : List Char :=
  replARS true (replSDigit (replSDollar (nbspFix (quoteFix (stripCR cs)))))

def fbaLines (cs : List Char) : List (List Char) :=
  ((splitOnC '\n' (fbaNorm cs)).map jsTrim).filter fun l => !l.isEmpty

/-- `BAD_CTX` of `findBestAmount` (and of the pipeline's safety rule). -/
def badCtx (cs : List Char) : Bool :=
  let l := lowerL cs
  ["cuit", "cuil", "cvu", "cbu", "coelsa", "operacion", "operación",
   "transaccion", "transacción", "identificacion", "identificación",
   "codigo", "código", "numero", "número", "referencia"].any
    fun p => containsL p.data l

/-- `KEY_NEAR` of `findBestAmount`. -/
def keyNearFBA (cs : List Char) : Bool :=
  ["comprobante", "transferencia", "motivo", "pagaste", "enviaste",
   "monto", "importe", "total"].any (fun p => containsCI p cs) ||
  containsGapCI "mercado" "pago" cs ||
  containsWordBCI "de" cs || containsWordBCI "para" cs

/-- `KEY_NEAR` of the pipeline's safety rule (no `enviaste`). -/
def keyNearSafety (cs : List Char) : Bool :=
  ["comprobante", "transferencia", "motivo", "pagaste",
   "monto", "importe", "total"].any (fun p => containsCI p cs) ||
  containsGapCI "mercado" "pago" cs ||
  containsWordBCI "de" cs || containsWordBCI "para" cs

/-! ### `RE_CURRENCY_ANY` = `\$\s*([0-9][0-9.,\s NBSP NNSP]*)` -/

def currencyClass (c : Char) : Bool :=
  c.isDigit || c == '.' || c == ',' || jsWs c

def matchCurrencyAt : List Char → Option (List Char × List Char)
  | '$' :: r1 =>
      match r1.dropWhile jsWs with
      | d :: r3 =>
          if d.isDigit then
            some (d :: r3.takeWhile currencyClass, r3.dropWhile currencyClass)
          else none
      | [] => none
  | _ => none

def currencyMatches : ℕ → List Char → List (List Char)
  | 0, _ => []
  | _ + 1, [] => []
  | n + 1, c :: cs =>
      match matchCurrencyAt (c :: cs) with
      | some (g, rest) => g :: currencyMatches n rest
      | none => currencyMatches n cs

def firstCurrency : List Char → Option (List Char)
  | [] => none
  | c :: cs =>
      match matchCurrencyAt (c :: cs) with
      | some (g, _) => some g
      | none => firstCurrency cs

/-! ### `findBestAmount` (§4.2 Amount Finder) -/

/-- `toFloatFlexible` of the source. -/
def toFloatFlexible (raw : List Char) : Option Dec :=
  toNumberARSL (jsTrim (nbspFix raw))

structure Cand where
  v : Dec
  prio : ℕ
deriving DecidableEq

/-- `pushCand`: keep only `50 ≤ v ≤ 10_000_000`. -/
def pushCand (v : Option Dec) (prio : ℕ) : List Cand :=
  match v with
  | some v =>
      if decide (Dec.ofInt 50 ≤ v) && decide (v ≤ Dec.ofInt 10000000) then [⟨v, prio⟩]
      else []
  | none => []

/-- `parseInt(raw, 10)` on a digit-led token. -/
def parseIntPrefix (cs : List Char) : ℕ :=
  natOfDigits (cs.takeWhile Char.isDigit)

def hasSepChar (cs : List Char) : Bool :=
  cs.any fun c => c == '.' || c == ',' || jsWs c

/-- Proximity bonus of pass B: `max (0, 3 - distance to a KEY_NEAR line)`
over the lines within distance 3. -/
def keyNearBonus (lns : List (List Char)) (idx : ℕ) : ℕ :=
  (List.range lns.length).foldl
    (fun b k =>
      if (decide (idx ≤ k + 3) && decide (k ≤ idx + 3)) && keyNearFBA (lns.getD k []) then
        max b (3 - (max k idx - min k idx))
      else b) 0

/-- Pass A: every `$`-led number on a non-`BAD_CTX` line, priority 6. -/
def passACands (lns : List (List Char)) : List Cand :=
  lns.flatMap fun ln =>
    if ln.isEmpty || badCtx ln || !ln.contains '$' then []
    else (currencyMatches ln.length ln).flatMap fun g => pushCand (toFloatFlexible g) 6

/-- Pass B: grouped-or-long numerics with the year rejection and the
proximity bonus. -/
def passBCands (lns : List (List Char)) : List Cand :=
  (List.range lns.length).flatMap fun idx =>
    let ln := lns.getD idx []
    if ln.isEmpty || badCtx ln then []
    else
      (groupedMatches cfgFBA ln).flatMap fun m =>
        let raw := m.2
        if !hasSepChar raw &&
            (decide (1900 ≤ parseIntPrefix raw) && decide (parseIntPrefix raw ≤ 2099)) then []
        else pushCand (toFloatFlexible raw) (2 + keyNearBonus lns idx)

/-- Final selection: drop sub-1000 candidates when a ≥ 1000 candidate
exists, then the maximum by (priority, value). -/
def pickBest : List Cand → Option Dec
  | [] => none
  | c :: cs =>
      some ((cs.foldl
        (fun acc d =>
          if decide (acc.prio < d.prio) || (acc.prio == d.prio && decide (acc.v < d.v)) then d
          else acc) c).v)

/-- `findBestAmount` of `wa-server.js`. -/
def findBestAmountL (text : List Char) : Option Dec :=
  if text.isEmpty then none
  else
    let lns := fbaLines text
    let a := passACands lns
    let cands := if a.isEmpty then passBCands lns else a
    if cands.isEmpty then none
    else
      let hasBig := cands.any fun c => decide (Dec.ofInt 1000 ≤ c.v)
      pickBest (if hasBig then cands.filter (fun c => decide (Dec.ofInt 1000 ≤ c.v)) else cands)

def findBestAmount (s : String) : Option Dec := findBestAmountL s.data

example : findBestAmount "Transferencia $150 .000" = some ⟨150000, 0⟩ := by decide

example : findBestAmount "año 2024 factura 1999" = none := by decide

example : findBestAmount "S 2024" = some ⟨1024, 0⟩ := by decide

example :
    findBestAmount "CUIT 20-12345678-9\nCVU 0000003100012345678901\n$ 2.345.678,90" =
      some ⟨234567890, 2⟩ := by decide

/-! ### `_normTextForTpl` (normalization used by the Template Parser and the
Field Extractor) -/

/-- `\s+ → " "`; fuelled with the input length. -/
def wsCollapseF : ℕ → List Char → List Char
  | 0, cs => cs
  | _, [] => []
  | n + 1, c :: cs =>
      if jsWs c then ' ' :: wsCollapseF n (cs.dropWhile jsWs)
      else c :: wsCollapseF n cs

def wsCollapse (cs : List Char) : List Char := wsCollapseF cs.length cs

/-- `_normTextForTpl` of the source: note that `\s+ → " "` also collapses
NEWLINES, so the normalized text is a single line, and that the `ARS`
rewrite here has no `\b`. -/
def tplNorm (cs : List Char) : List Char :=
  jsTrim (wsCollapse (replARS false (replSDigit (replSDollar
    (quoteFix (nbspFix (stripCR cs)))))))

def tplLines (cs : List Char) : List (List Char) :=
  ((splitOnC '\n' (tplNorm cs)).map jsTrim).filter fun l => !l.isEmpty

/-! ### The template amount regex
`(?:\$)\s*([0-9]{1,3}(?:[ .,NBSP NNSP][0-9]{3})*(?:[.,][0-9]{1,2})?|[0-9]+(?:[.,][0-9]{1,2})?)`

Both alternatives require a digit right after `\$\s*`, and the first
alternative succeeds whenever a digit is present (all its other parts are
optional and nothing follows the group), so the second alternative is
unreachable and no backtracking can occur. -/

def tplSep (c : Char) : Bool :=
  c == ' ' || c == '.' || c == ',' || c == nbspC || c == nnspC

/-- Greedy `(?:SEP[0-9]{3})*`: (consumed, rest). -/
def tplReps : List Char → (List Char × List Char)
  | s :: a :: b :: c :: rest =>
      if tplSep s && a.isDigit && b.isDigit && c.isDigit then
        let p := tplReps rest
        (s :: a :: b :: c :: p.1, p.2)
      else ([], s :: a :: b :: c :: rest)
  | cs => ([], cs)

/-- Greedy `(?:[.,][0-9]{1,2})?`: (consumed, rest). -/
def tplTail : List Char → (List Char × List Char)
  | s :: a :: rest =>
      if (s == '.' || s == ',') && a.isDigit then
        match rest with
        | b :: r2 => if b.isDigit then ([s, a, b], r2) else ([s, a], rest)
        | [] => ([s, a], [])
      else ([], s :: a :: rest)
  | cs => ([], cs)

/-- One attempt of the template amount regex at a position:
(group `m[1]`, full match `m[0]`, rest). -/
def tplAmtAt : List Char → Option (List Char × List Char × List Char)
  | '$' :: r1 =>
      let ws := r1.takeWhile jsWs
      match r1.dropWhile jsWs with
      | d :: r2 =>
          if d.isDigit then
            let ds := (r2.takeWhile Char.isDigit).take 2
            let r3 := r2.drop ds.length
            let p := tplReps r3
            let t := tplTail p.2
            let g := d :: ds ++ p.1 ++ t.1
            some (g, '$' :: ws ++ g, t.2)
          else none
      | [] => none
  | _ => none

/-- First match of the template amount regex (`_extractAmountFromLine`'s
`line.match(...)`). -/
def firstTplAmt : List Char → Option (List Char)
  | [] => none
  | c :: cs =>
      match tplAmtAt (c :: cs) with
      | some (g, _, _) => some g
      | none => firstTplAmt cs

/-- `_extractAmountFromLine` of the source. -/
def extractAmountFromLine (ln : List Char) : Option Dec :=
  match firstTplAmt ln with
  | some g => toNumberARSL g
  | none => none

/-- All full matches `m[0]` of the template amount regex
(`all.match(/.../gi)` of the fallback). -/
def tplAmtFullMatches : ℕ → List Char → List (List Char)
  | 0, _ => []
  | _ + 1, [] => []
  | n + 1, c :: cs =>
      match tplAmtAt (c :: cs) with
      | some (_, full, rest) => full :: tplAmtFullMatches n rest
      | none => tplAmtFullMatches n cs

/-- The fallback's inner re-match `/(?:\$)\s*([0-9.,   ]+)/i`
applied to one hit. -/
def fallbackInnerClass (c : Char) : Bool :=
  c.isDigit || c == '.' || c == ',' || c == ' ' || c == nbspC || c == nnspC

def fallbackInner : List Char → Option (List Char)
  | [] => none
  | '$' :: r1 =>
      (let r2 := r1.dropWhile jsWs
       let run := r2.takeWhile fallbackInnerClass
       if run.isEmpty then fallbackInner r1 else some run)
  | _ :: cs => fallbackInner cs

/-! ### Template registry (`TPLS`) and `parseByTemplate` -/

def containsAnyCI (pats : List String) (cs : List Char) : Bool :=
  pats.any fun p => containsCI p cs

/-- `W\b` with a word boundary on BOTH sides (`\bprex\b`). -/
def containsWordBBCIAux (w : List Char) (prev : Option Char) : List Char → Bool
  | [] => w.isEmpty
  | c :: cs =>
      (boundaryPrev prev && startsWithL w (c :: cs) &&
        endBoundary ((c :: cs).drop w.length)) ||
      containsWordBBCIAux w (some c) cs

def containsWordBBCI (w : String) (cs : List Char) : Bool :=
  containsWordBBCIAux w.data none (lowerL cs)

/-- `A\s+B` (at least one whitespace between the two words),
case-insensitive. -/
def containsGap1CIAux (a b : List Char) : List Char → Bool
  | [] => false
  | c :: cs =>
      (startsWithL a (c :: cs) &&
        (match (c :: cs).drop a.length with
         | w :: r => jsWs w && startsWithL b ((w :: r).dropWhile jsWs)
         | [] => false)) ||
      containsGap1CIAux a b cs

def containsGap1CI (a b : String) (cs : List Char) : Bool :=
  containsGap1CIAux a.data b.data (lowerL cs)

structure TplEntry where
  provider : String
  test : List Char → Bool
  amountLine : List Char → Bool

def wordBAny (ws : List String) (ln : List Char) : Bool :=
  ws.any fun w => containsWordBCI w ln

/-- The template registry `TPLS` of the source, in order. -/
def TPLS : List TplEntry :=
  [⟨"Mercado Pago",
    fun t => containsGapCI "mercado" "pago" t || containsGapCI "mercado" "libre" t ||
      containsAnyCI ["codigo de identificacion", "codigo de identificación",
        "código de identificacion", "código de identificación"] t ||
      containsCI "comprobante de transferencia" t || containsCI "pagaste" t,
    wordBAny ["pagaste", "transferiste", "monto", "importe", "total"]⟩,
   ⟨"Naranja X",
    fun t => containsGapCI "naranja" "x" t || containsCI "enviaste" t,
    wordBAny ["enviaste", "monto", "importe", "total"]⟩,
   ⟨"Prex",
    fun t => containsWordBBCI "prex" t || containsCI "comprobante de transferencia" t,
    wordBAny ["monto", "importe", "total", "enviaste", "transferiste"]⟩,
   ⟨"Ualá",
    fun t => containsWordBCI "uala" t || containsWordBCI "ualá" t ||
      containsCI "transferencia realizada" t || containsCI "comprobante" t,
    wordBAny ["monto", "importe", "total", "transferiste", "transferencia"]⟩,
   ⟨"Banco Naci[oó]n|BNA",
    fun t => containsGap1CI "banco" "nacion" t || containsGap1CI "banco" "nación" t ||
      containsWordBCI "bna" t || containsCI "bna+" t,
    wordBAny ["monto", "importe", "total"]⟩,
   ⟨"Santander", fun t => containsCI "santander" t,
    wordBAny ["monto", "importe", "total"]⟩,
   ⟨"Galicia", fun t => containsCI "galicia" t,
    wordBAny ["monto", "importe", "total"]⟩]

/-- JavaScript falsiness of a number-or-null (`!best`): null or zero. -/
def jsFalsyD : Option Dec → Bool
  | none => true
  | some d => d.n == 0

/-- `if (!best || v > best) best = v` on a finite `v`. -/
def jsBestUpd (best : Option Dec) (v : Dec) : Option Dec :=
  match best with
  | none => some v
  | some b => if b.n == 0 || decide (b < v) then some v else some b

/-- First match of `\b\d{2}-?\d{8}-?\d\b` (`RE_CUIT`, kept with hyphens). -/
def cuitAt (prev : Option Char) (cs : List Char) : Option (List Char) :=
  if !boundaryPrev prev then none
  else
    match cs with
    | a :: b :: r1 =>
        if a.isDigit && b.isDigit then
          let r2 := if r1.head? == some '-' then r1.drop 1 else r1
          let hy1 : List Char := if r1.head? == some '-' then ['-'] else []
          let d8 := r2.take 8
          if d8.length = 8 && d8.all Char.isDigit then
            let r3 := r2.drop 8
            let r4 := if r3.head? == some '-' then r3.drop 1 else r3
            let hy2 : List Char := if r3.head? == some '-' then ['-'] else []
            match r4 with
            | d :: r5 =>
                if d.isDigit && endBoundary r5 then
                  some (a :: b :: hy1 ++ d8 ++ hy2 ++ [d])
                else none
            | [] => none
          else none
        else none
    | _ => none

def firstCuit (prev : Option Char) : List Char → Option (List Char)
  | [] => none
  | c :: cs =>
      match cuitAt prev (c :: cs) with
      | some m => some m
      | none => firstCuit (some c) cs

/-- First match of `\b\d{22}\b` (`RE_CBU`). -/
def cbuAt (prev : Option Char) (cs : List Char) : Option (List Char) :=
  if !boundaryPrev prev then none
  else
    let d22 := cs.take 22
    if d22.length = 22 && d22.all Char.isDigit && endBoundary (cs.drop 22) then some d22
    else none

def firstCbu (prev : Option Char) : List Char → Option (List Char)
  | [] => none
  | c :: cs =>
      match cbuAt prev (c :: cs) with
      | some m => some m
      | none => firstCbu (some c) cs

/-- Name-letter class `[A-ZÁÉÍÓÚÑa-záéíóúñ .]`. -/
def nameClass (c : Char) : Bool :=
  c.isAlpha || c == ' ' || c == '.' ||
  ["á", "é", "í", "ó", "ú", "ñ", "Á", "É", "Í", "Ó", "Ú", "Ñ"].any
    (fun s => s.data.head? == some c)

/-- `\bKW[:\s]+([A-ZÁÉÍÓÚÑa-záéíóúñ .]+)` (case-insensitive, `kw`
lowercase): value of the group of the first match, reproducing the
backtracking of `[:\s]+` against a group that may itself start with
whitespace. -/
def nameAfterKwAux (kw : List Char) (prev : Option Char) : List Char → Option (List Char)
  | [] => none
  | c :: cs =>
      (if boundaryPrev prev && startsWithL kw (lowerL (c :: cs)) then
        let after := (c :: cs).drop kw.length
        let seps := after.takeWhile fun x => x == ':' || jsWs x
        let g := (after.dropWhile fun x => x == ':' || jsWs x).takeWhile nameClass
        if seps.isEmpty then none
        else if !g.isEmpty then some g
        else
          match seps.getLast? with
          | some l => if 2 ≤ seps.length && jsWs l then some [l] else none
          | none => none
      else none) |>.orElse fun _ => nameAfterKwAux kw (some c) cs

/-- `match[1]?.trim() || null`. -/
def nameAfterKw (kw : String) (cs : List Char) : Option (List Char) :=
  match nameAfterKwAux kw.data none cs with
  | some g => let t := jsTrim g; if t.isEmpty then none else some t
  | none => none

structure TplResult where
  matched : Bool
  provider : Option String
  amount : Option Dec
  cuit : Option (List Char)
  cvu : Option (List Char)
  nameFrom : Option (List Char)
  nameTo : Option (List Char)
deriving DecidableEq

def TplResult.noMatch : TplResult := ⟨false, none, none, none, none, none, none⟩

/-- The whole-text `$` fallback fold of `parseByTemplate`. -/
def tplFallbackFold (all : List Char) (b0 : Option Dec) : Option Dec :=
  (tplAmtFullMatches all.length all).foldl
    (fun b hit =>
      match fallbackInner hit with
      | some mm =>
          match toNumberARSL mm with
          | some v => jsBestUpd b v
          | none => b
      | none => b) b0

/-- The tail of a template iteration: return the matched record when the
best amount is positive, else keep looking. -/
def tplFinish (tpl : TplEntry) (all : List Char) : Option Dec → Option TplResult
  | some b =>
      if decide (Dec.ofInt 0 < b) then
        some ⟨true, some tpl.provider, some b,
          firstCuit none all, firstCbu none all,
          nameAfterKw "de" all, nameAfterKw "para" all⟩
      else none
  | none => none

/-- The per-template body of `parseByTemplate`: best amount over the lines
(first `$`-led token of each qualifying line), then the whole-text `$`
fallback, then the result when positive. -/
def tplTryEntry (tpl : TplEntry) (all : List Char) (lns : List (List Char)) :
    Option TplResult :=
  if !tpl.test all then none
  else
    let best1 := lns.foldl
      (fun best ln =>
        if tpl.amountLine ln || ln.contains '$' then
          match extractAmountFromLine ln with
          | some v => jsBestUpd best v
          | none => best
        else best) none
    tplFinish tpl all (if jsFalsyD best1 then tplFallbackFold all best1 else best1)

/-- `parseByTemplate` of `wa-server.js` (§4.3 Template Parser). -/
def parseByTemplateL (text : List Char) : TplResult :=
  if text.isEmpty then TplResult.noMatch
  else
    let all := tplNorm text
    let lns := tplLines text
    match TPLS.findSome? (fun tpl => tplTryEntry tpl all lns) with
    | some r => r
    | none => TplResult.noMatch

def parseByTemplate (s : String) : TplResult := parseByTemplateL s.data

example : (parseByTemplate "pagaste $ 200 y $ 900").amount = some ⟨200, 0⟩ := by decide

example : (parseByTemplate "pagaste $ 200 y $ 900").provider = some "Mercado Pago" := by
  decide

example :
    (parseByTemplate "Mercado Pago\nPagaste\n$ 15.000,00").amount = some ⟨1500000, 2⟩ := by
  decide

example : (parseByTemplate "hola").matched = false := by decide

/-! ### `scoreReceiptText` (§4.6 Scorer) -/

/-- `W1\s+W2\s+...` at a position (each word starts with a non-whitespace
character, so the maximal gap is the only viable one). -/
def seqGapAt : List (List Char) → List Char → Bool
  | [], _ => true
  | [p], cs => startsWithL p cs
  | p :: q :: ps, cs =>
      startsWithL p cs &&
      (match cs.drop p.length with
       | w :: r => jsWs w && seqGapAt (q :: ps) ((w :: r).dropWhile jsWs)
       | [] => false)

def containsSeqGapAux (ps : List (List Char)) : List Char → Bool
  | [] => false
  | c :: cs => seqGapAt ps (c :: cs) || containsSeqGapAux ps cs

def containsSeqGapCI (parts : List String) (cs : List Char) : Bool :=
  containsSeqGapAux (parts.map String.data) (lowerL cs)

/-- `[A-Z0-9\-]` under `/i`. -/
def idTokenClass (c : Char) : Bool :=
  c.isAlpha || c.isDigit || c == '-'

/-- The part `\s*[:\-]?\s*[A-Z0-9\-]+` after an id keyword (with the
backtracking of `[:\-]?` folded in). -/
def hasIdAfter (rest : List Char) : Bool :=
  let r1 := rest.dropWhile jsWs
  (match r1.head? with | some c => idTokenClass c | none => false) ||
  (match r1 with
   | c :: r2 => (c == ':' || c == '-') &&
       (match (r2.dropWhile jsWs).head? with
        | some d => idTokenClass d
        | none => false)
   | [] => false)

def idKws : List String :=
  ["operacion", "operación", "transaccion", "transacción",
   "codigo", "código", "identificacion", "identificación"]

def hasIdScan : List Char → Bool
  | [] => false
  | c :: cs =>
      (idKws.any fun k =>
        startsWithL k.data (c :: cs) && hasIdAfter ((c :: cs).drop k.data.length)) ||
      hasIdScan cs

/-- `(operaci[oó]n|transacci[oó]n|c[oó]digo|identificaci[oó]n)\s*[:\-]?\s*[A-Z0-9\-]+`. -/
def hasIdTest (cs : List Char) : Bool := hasIdScan (lowerL cs)

def isRasterMime (m : String) : Bool :=
  let l := lowerL m.data
  l == "image/jpeg".data || l == "image/png".data || l == "image/webp".data

structure ScoreOut where
  score : ℕ
  amount : Option Dec
  provider : Option String
deriving DecidableEq

/-- `scoreReceiptText` of `wa-server.js`. -/
def scoreReceiptTextL (text : List Char) : ScoreOut :=
  let t := jsTrim (wsCollapse text)
  let tpl := parseByTemplateL text
  let amountTpl := if tpl.matched then tpl.amount else none
  let hasComprobante := containsCI "comprobante" t
  let hasTransfer := containsCI "transferencia" t
  let hasMercadoPago := containsGapCI "mercado" "pago" t
  let hasKw := containsAnyCI
    ["pagaste", "recibo", "pago realizado",
     "numero de operacion", "numero de operación",
     "número de operacion", "número de operación",
     "codigo de identificacion", "codigo de identificación",
     "código de identificacion", "código de identificación"] t
  let hasBank := containsGapCI "mercado" "pago" t ||
    containsAnyCI ["uala", "ualá", "santander", "galicia", "macro", "bbva",
      "hsbc", "icbc", "nacion", "nación", "bna"] t
  let amountHeur := findBestAmountL text
  let amount0 := if amountTpl.isSome then amountTpl else amountHeur
  let amount :=
    match amount0 with
    | some a =>
        if a.n != 0 && decide (a < Dec.ofInt 1000) then
          let fallback := parseByTemplateL text
          match fallback.amount with
          | some fa =>
              if fallback.matched && decide (Dec.ofInt 1000 < fa) then some fa else some a
          | none => some a
        else some a
    | none => none
  let hasAmount :=
    match amount with
    | some a => decide (Dec.ofInt 0 < a)
    | none => false
  let parties := containsAnyCI ["cuit", "cvu", "cbu", "beneficiario"] t
  let hasCurrencySymbol := t.contains '$'
  let hasThousandsPattern := (firstGrouped cfgThousands none t).isSome
  let score :=
    (if containsSeqGapCI ["comprobante", "de", "transferencia"] t then 2 else 0) +
    (if containsCI "enviaste" t then 1 else 0) +
    (if hasComprobante then 2 else 0) +
    (if hasTransfer then 2 else 0) +
    (if hasMercadoPago then 2 else 0) +
    (if hasKw then 1 else 0) +
    (if hasBank then 1 else 0) +
    (if hasAmount then 3 else 0) +
    (if hasIdTest t then 1 else 0) +
    (if parties then 1 else 0) +
    (if hasCurrencySymbol then 1 else 0) +
    (if hasThousandsPattern &&
        (match amount with
         | some a => decide (Dec.ofInt 1000 ≤ a)
         | none => false) then 2 else 0) +
    (if tpl.matched && hasAmount then 3 else 0)
  ⟨score, if hasAmount then amount else none,
    if tpl.matched then tpl.provider else none⟩

def scoreReceiptText (s : String) : ScoreOut := scoreReceiptTextL s.data

/-! ### The Receipt Pipeline's amount-normalization rules (§4.7, steps of
`recordIncomingChat`) -/

/-- `IS_MP = /mercado\s*pago/i.test(combined)`. -/
def isMPText (combined : List Char) : Bool := containsGapCI "mercado" "pago" combined

def safetyLines (combined : List Char) : List (List Char) :=
  ((splitOnC '\n' (stripCR combined)).map jsTrim).filter fun l => !l.isEmpty

/-- Rule 1 core: largest grouped amount in `[1000, 10_000_000]` on a
non-`BAD_CTX` line carrying `$` or a `KEY_NEAR` keyword, with the
anti-CVU/CBU digit-length filter. -/
def safetyMax (combined : List Char) : Option Dec :=
  (safetyLines combined).foldl
    (fun maxBig ln =>
      if badCtx ln then maxBig
      else if !ln.contains '$' && !keyNearSafety ln then maxBig
      else
        (groupedMatches cfgSafety ln).foldl
          (fun mb m =>
            let raw := m.1
            let digits := raw.filter Char.isDigit
            if decide (15 ≤ digits.length) || digits.length == 22 then mb
            else
              match toNumberARSL raw with
              | some v =>
                  if decide (Dec.ofInt 1000 ≤ v) && decide (v ≤ Dec.ofInt 10000000) then
                    match mb with
                    | none => some v
                    | some m0 => some (m0.maxD v)
                  else mb
              | none => mb)
          maxBig)
    none

/-- Rule 1: `if (!Number.isFinite(amount) || amount < 1000)` adopt the
safety maximum when one exists, bumping the score to at least 10. -/
def applySafetyRule (combined : List Char) (st : ScoreOut) : ScoreOut :=
  let cond := match st.amount with
    | none => true
    | some a => decide (a < Dec.ofInt 1000)
  if cond then
    match safetyMax combined with
    | some mB => ⟨max st.score 10, some mB, st.provider⟩
    | none => st
  else st

/-- Rule 2: the triple-zero hint multiplies a sub-1000 amount by 1000. -/
def applyTripleZero (combined : List Char) (st : ScoreOut) : ScoreOut :=
  match st.amount with
  | some a =>
      if decide (a < Dec.ofInt 1000) && hasOcrTripleZero combined then
        ⟨max st.score 10, some a.mul1000, st.provider⟩
      else st
  | none => st

/-- `provider || "Mercado Pago"` (JavaScript `||`: empty string is falsy). -/
def jsOrProvider (p : Option String) (d : String) : Option String :=
  match p with
  | some s => if s.isEmpty then some d else some s
  | none => some d

/-- Rules 3 and 5: Mercado-Pago ×1000; `bump` is 10 for the first
application and 12 for the post-fallback repeat. -/
def applyMpRule (combined : List Char) (flag : Bool) (bump : ℕ) (st : ScoreOut) : ScoreOut :=
  match st.amount with
  | some a =>
      if flag && isMPText combined && decide (Dec.ofInt 0 < a) &&
          decide (a < Dec.ofInt 1000) then
        ⟨max st.score bump, some a.mul1000, jsOrProvider st.provider "Mercado Pago"⟩
      else st
  | none => st

/-- Rule 4: visual grid fallback (the oracle `visual` stands for
`tryExtractAmountFromImage` on the media bytes). -/
def applyVisualRule (combined : List Char) (mimetype : String) (visual : Option Dec)
    (st : ScoreOut) : ScoreOut :=
  let needs := match st.amount with
    | none => true
    | some a => decide (a ≤ Dec.ofInt 0)
  if needs && isMPText combined && isRasterMime mimetype then
    match visual with
    | some f =>
        if decide (Dec.ofInt 0 < f) then
          ⟨max st.score 12, some f, jsOrProvider st.provider "Mercado Pago"⟩
        else st
    | none => st
  else st

/-- The full ordered rule pipeline applied to the scorer's output. -/
def runReceiptRules (combined mimetype : String) (visual : Option Dec) (flag : Bool) :
    ScoreOut :=
  applyMpRule combined.data flag 12
    (applyVisualRule combined.data mimetype visual
      (applyMpRule combined.data flag 10
        (applyTripleZero combined.data
          (applySafetyRule combined.data
            (scoreReceiptTextL combined.data)))))

/-- The accept gate `score >= 4 && amount && amount > 0`. -/
def receiptAccept (st : ScoreOut) : Bool :=
  decide (4 ≤ st.score) &&
  (match st.amount with
   | some a => a.n != 0 && decide (Dec.ofInt 0 < a)
   | none => false)

/-- The observable persistence effects of the media branch of
`recordIncomingChat` for one message. -/
structure MediaEffects where
  uploadAttempted : Bool
  conversionInserted : Bool
  agendaSetConversion : Bool
  capiPurchase : Bool
deriving DecidableEq

/-- The media branch after OCR: score, normalize, gate, then (on accept)
`saveReceiptAndCreateConversion` (upload + conversion insert + agenda
upsert to `conversion`), the agenda update and the Meta CAPI `Purchase`;
on reject only a log line. -/
def mediaBranch (combined mimetype : String) (visual : Option Dec) (flag : Bool)
    (pageIdPresent : Bool) (hasMediaData : Bool) : MediaEffects :=
  let st := runReceiptRules combined mimetype visual flag
  if receiptAccept st then
    ⟨hasMediaData, true, true,
      pageIdPresent &&
        (match st.amount with
         | some a => decide (Dec.ofInt 0 < a)
         | none => false)⟩
  else ⟨false, false, false, false⟩

example : scoreReceiptText "pagaste $ 500" = ⟨8, some ⟨500, 0⟩, some "Mercado Pago"⟩ := by
  decide

example :
    runReceiptRules "pagaste $ 500" "image/jpeg" none true =
      ⟨8, some ⟨500, 0⟩, some "Mercado Pago"⟩ := by decide

example :
    (scoreReceiptText "Mercado Pago\nPagaste\n$ 15.000,00\nReferencia: AB-12").score = 13 := by
  decide

example :
    (scoreReceiptText "Mercado Pago\nPagaste\n$ 15.000,00\nReferencia: AB-12").amount =
      some ⟨1500000, 2⟩ := by decide

/-! ### `extractReceiptFields`: the `transaction` / `reference` path

`RE_TXN` and `RE_REF` are GLOBAL (`/g`) regexes, and the source reads
`norm.match(RE_REF)[2]`.  With the `/g` flag `String.match` returns the
array of FULL matches (no capture groups), so index 2 is the third full
match — `undefined` unless the label occurs at least three times.  The
embedding reproduces this faithfully. -/

/-- Case-insensitive `startsWith` against an original-case text. -/
def startsWithCI : List Char → List Char → Bool
  | [], _ => true
  | _ :: _, [] => false
  | p :: ps, c :: cs => p == jsLower c && startsWithCI ps cs

/-- The part `\s*[:\-]?\s*([A-Z0-9\-]+)` after a keyword, with the
backtracking of `[:\-]?` when the token is missing (a `-` separator can
itself become the token). Returns (consumed, rest). -/
def refTxnAfter (rest : List Char) : Option (List Char × List Char) :=
  let ws1 := rest.takeWhile jsWs
  let r1 := rest.dropWhile jsWs
  match r1 with
  | c :: r2 =>
      if c == ':' || c == '-' then
        let ws2 := r2.takeWhile jsWs
        let r3 := r2.dropWhile jsWs
        let tok := r3.takeWhile idTokenClass
        if !tok.isEmpty then some (ws1 ++ c :: ws2 ++ tok, r3.drop tok.length)
        else if c == '-' then
          let tok2 := r1.takeWhile idTokenClass
          some (ws1 ++ tok2, r1.drop tok2.length)
        else none
      else
        let tok := r1.takeWhile idTokenClass
        if tok.isEmpty then none else some (ws1 ++ tok, r1.drop tok.length)
  | [] => none

/-- Keyword alternatives of `RE_REF` in the regex's alternation order
(`referencia|ref\.?|c[oó]digo|cod\.?`, the optional dot greedy). -/
def refKwAlts : List String :=
  ["referencia", "ref.", "ref", "codigo", "código", "cod.", "cod"]

def refMatchAt (cs : List Char) : Option (List Char × List Char) :=
  refKwAlts.findSome? fun kw =>
    if startsWithCI kw.data cs then
      match refTxnAfter (cs.drop kw.data.length) with
      | some p => some (cs.take kw.data.length ++ p.1, p.2)
      | none => none
    else none

/-- `nro\.?\s*op\.?`: length of the keyword part when it matches here. -/
def nroOpLen (cs : List Char) : Option ℕ :=
  if startsWithCI "nro".data cs then
    let r := cs.drop 3
    let d1 : ℕ := if r.head? == some '.' then 1 else 0
    let r1 := r.drop d1
    let ws := r1.takeWhile jsWs
    let r2 := r1.dropWhile jsWs
    if startsWithCI "op".data r2 then
      let r3 := r2.drop 2
      some (3 + d1 + ws.length + 2 + (if r3.head? == some '.' then 1 else 0))
    else none
  else none

def txnMatchAt (cs : List Char) : Option (List Char × List Char) :=
  let kwLen : Option ℕ :=
    if startsWithCI "operacion".data cs then some 9
    else if startsWithCI "operación".data cs then some 9
    else if startsWithCI "transaccion".data cs then some 11
    else if startsWithCI "transacción".data cs then some 11
    else nroOpLen cs
  match kwLen with
  | some n =>
      match refTxnAfter (cs.drop n) with
      | some p => some (cs.take n ++ p.1, p.2)
      | none => none
  | none => none

/-- Fuelled global scan collecting all full matches. -/
def scanAllMatches (f : List Char → Option (List Char × List Char)) :
    ℕ → List Char → List (List Char)
  | 0, _ => []
  | _ + 1, [] => []
  | n + 1, c :: cs =>
      match f (c :: cs) with
      | some (full, rest) => full :: scanAllMatches f n rest
      | none => scanAllMatches f n cs

def refMatches (cs : List Char) : List (List Char) := scanAllMatches refMatchAt cs.length cs

def txnMatches (cs : List Char) : List (List Char) := scanAllMatches txnMatchAt cs.length cs

/-- The `transaction` and `reference` fields of `extractReceiptFields`:
`norm.match(RE_TXN)[2]` and `norm.match(RE_REF)[2]` (third FULL match or
`undefined`, by the `/g` flag). -/
def extractRefTxnL (text : List Char) : Option String × Option String :=
  let norm := tplNorm text
  ((txnMatches norm).get? 2 |>.map String.mk,
   (refMatches norm).get? 2 |>.map String.mk)

/-- The `reference` value inserted into `analytics_conversions`
(`parsed.reference || null`: `undefined` and the empty string become null). -/
def conversionReference (captionText : String) : Option String :=
  match (extractRefTxnL captionText.data).2 with
  | some r => if r.isEmpty then none else some r
  | none => none

example : refMatches (tplNorm "Referencia: AB-12".data) = ["Referencia: AB-12".data] := by
  decide

/-! ### `tryExtractAmountFromImage` (§4.5 visual fallback)

The sharp/Tesseract side is an oracle: `text r c p q` is the recognized
text of the tile at row `r`, column `c`, under pre-process variant `p`
(0, 1, 2 = the three pipelines) and page-segmentation mode index `q`
(0 = psm 6, 1 = psm 7); `none` models a Tesseract error.  `ok r c` models
the tile-geometry guard (extract success and sides > 16 px). -/

structure TileOcr where
  text : Fin 6 → Fin 4 → Fin 3 → Fin 2 → Option String
  ok : Fin 6 → Fin 4 → Bool

/-- The `RE_GROUP` branch of `readPiece` (value from `m[0]`). -/
def readPieceGroup (r : List Char) (hint : Bool) : Option Dec :=
  match firstGrouped cfgTile none r with
  | some m =>
      match toNumberARSL m.2 with
      | some v =>
          let v2 := if decide (v < Dec.ofInt 1000) && hint then v.mul1000 else v
          if decide (Dec.ofInt 0 < v2) then some v2 else none
      | none => none
  | none => none

/-- One psm attempt of `readPiece` on a recognized text. -/
def readPieceStep (raw : List Char) : Option Dec :=
  let r := jsTrim raw
  if r.isEmpty then none
  else
    let hint := hasOcrTripleZero r
    match firstCurrency r with
    | some g =>
        match toNumberARSL g with
        | some v =>
            let v2 := if decide (v < Dec.ofInt 1000) && hint then v.mul1000 else v
            if decide (Dec.ofInt 0 < v2) then some v2 else readPieceGroup r hint
        | none => readPieceGroup r hint
    | none => readPieceGroup r hint

/-- `readPiece`: psm 6 then psm 7 (a `none` text models a caught error). -/
def readPiece (t0 t1 : Option String) : Option Dec :=
  match t0 with
  | some s0 =>
      match readPieceStep s0.data with
      | some v => some v
      | none => match t1 with
                | some s1 => readPieceStep s1.data
                | none => none
  | none =>
      match t1 with
      | some s1 => readPieceStep s1.data
      | none => none

/-- Value of one tile: first of the three pre-process variants whose
`readPiece` is positive (the inner `break`). -/
def tileValue (o : TileOcr) (r : Fin 6) (c : Fin 4) : Option Dec :=
  if o.ok r c then
    (List.finRange 3).findSome? fun p => readPiece (o.text r c p 0) (o.text r c p 1)
  else none

/-- Row-major tile order of the two nested loops. -/
def orderedTiles : List (Fin 6 × Fin 4) :=
  (List.finRange 6).flatMap fun r => (List.finRange 4).map fun c => (r, c)

/-- Left fold that keeps the first hit (the two nested loops of the
source, whose conditions both carry `&& !best`). -/
def firstHitFold {α β : Type} (f : α → Option β) (l : List α) : Option β :=
  l.foldl (fun acc x => match acc with | some _ => acc | none => f x) none

/-- `tryExtractAmountFromImage` of `wa-server.js`.  Both tile loops carry
`&& !best`, so the scan stops at the FIRST tile that yields a value (the
`Math.max` inside is unreachable with `best` still null). -/
def tryExtractAmountFromImage (sharpAvail : Bool) (mimetype : String) (o : TileOcr) :
    Option Dec :=
  if !sharpAvail then none
  else if !isRasterMime mimetype then none
  else firstHitFold (fun rc => tileValue o rc.1 rc.2) orderedTiles

/-- The spec's reading: maximum positive value across ALL tiles. -/
def tileMax (o : TileOcr) : Option Dec :=
  orderedTiles.foldl
    (fun acc rc =>
      match tileValue o rc.1 rc.2 with
      | some v => match acc with
                  | none => some v
                  | some m => some (m.maxD v)
      | none => acc)
    none

/-! ### Line session state machine (§4.8, `attachClient` + `probeLine`)

In-memory per-line state as held in the `lines` map: `status`,
`phone`, `lastQrDataUrl`.  Events are the external client's callbacks and
the 20-second health probe; `setState` merges patches, so fields absent
from a patch are preserved. -/

inductive LStatus
  | initializing | loading | qr | authenticated | ready
  | disconnected | restarting | error
deriving DecidableEq

structure LineSt where
  status : LStatus
  phone : Option String
  lastQr : Option String
deriving DecidableEq

inductive LEvent
  | loadingScreen
  | qrEvt (q : String)
  | authenticatedEvt
  | readyEvt (p : Option String)
  | disconnectedEvt
  | restartTick
  | reattach
  | probeConnected
  | probeDisconnected

def lineInit : LineSt := ⟨.initializing, none, none⟩

/-- One event handler, as the patch it passes to `setState` (merged into
the current state). -/
def lineStep (st : LineSt) : LEvent → LineSt
  | .loadingScreen => { st with status := .loading }
  | .qrEvt q => ⟨.qr, none, some q⟩
  | .authenticatedEvt => { st with status := .authenticated }
  | .readyEvt p => { st with status := .ready, phone := p }
  | .disconnectedEvt => ⟨.disconnected, none, none⟩
  | .restartTick => ⟨.restarting, none, none⟩
  | .reattach => lineInit
  | .probeConnected => { st with status := .ready }
  | .probeDisconnected => ⟨.disconnected, none, none⟩

def lineRun (evs : List LEvent) : LineSt := evs.foldl lineStep lineInit

/-! ### Inbound Router (`recordIncomingChat`) and the seen-messages set

The persistence layer is abstracted to the rows the claims speak about:
the chat-row count, the set of lead keys `(project_id, contact)` (both the
select-then-insert path and the trigger upsert insert at most once per
key), and the conversion-row count.  OCR and the visual fallback are
oracle fields of the message's media. -/

structure MediaMsg where
  mimetype : String
  dataPresent : Bool
  ocrText : String
  visual : Option Dec

structure Msg where
  idSer : Option String
  fromJid : String
  fromMe : Bool
  body : String
  caption : String
  hasMedia : Bool
  mtype : String
  media : Option MediaMsg

structure Page where
  id : String
  slug : String
  projectId : Option String

structure Env where
  lineProjectId : Option String
  pageForSlug : String → Option Page
  mpFlag : Bool

structure Sys where
  seen : List String
  chats : ℕ
  leads : List (Option String × String)
  conversions : ℕ
deriving DecidableEq

/-- `jid.split("@")[0].replace(/\D+/g, "")`. -/
def jidContact (jid : List Char) : List Char :=
  ((splitOnC '@' jid).headD []).filter Char.isDigit

def endsWithL (suffix cs : List Char) : Bool :=
  startsWithL suffix.reverse cs.reverse

/-- `[a-z0-9._-]` under `/i`. -/
def tagClass (c : Char) : Bool :=
  c.isAlpha || c.isDigit || c == '.' || c == '_' || c == '-'

/-- First match of `#p:([a-z0-9._-]+)/i`: the tagged slug. -/
def tagMatch : List Char → Option (List Char)
  | [] => none
  | '#' :: rest =>
      (match rest with
       | p :: ':' :: r2 =>
           if p == 'p' || p == 'P' then
             let run := r2.takeWhile tagClass
             if run.isEmpty then tagMatch rest else some run
           else tagMatch rest
       | _ => tagMatch rest)
  | _ :: cs => tagMatch cs

/-- `\s+` between two words of the lead trigger. -/
def reqGap1 (cs : List Char) : Option (List Char) :=
  match cs with
  | w :: r => if jsWs w then some ((w :: r).dropWhile jsWs) else none
  | [] => none

/-- `^\s*hola\s+mi\s+c[oó]digo\s+de\s+descuento\s+es\s*[:\-]?\s*\S+`.
After `es` and `\s*`, any remaining character is necessarily non-white, so
the tail (`[:\-]?\s*\S+` with its backtracking) succeeds exactly when
something remains. -/
def leadTrigger (cs : List Char) : Bool :=
  let r0 := cs.dropWhile jsWs
  startsWithCI "hola".data r0 &&
    (match reqGap1 (r0.drop 4) with
     | some r1 => startsWithCI "mi".data r1 &&
         (match reqGap1 (r1.drop 2) with
          | some r2 =>
              (startsWithCI "codigo".data r2 || startsWithCI "código".data r2) &&
              (match reqGap1 (r2.drop 6) with
               | some r3 => startsWithCI "de".data r3 &&
                   (match reqGap1 (r3.drop 2) with
                    | some r4 => startsWithCI "descuento".data r4 &&
                        (match reqGap1 (r4.drop 9) with
                         | some r5 => startsWithCI "es".data r5 &&
                             !((r5.drop 2).dropWhile jsWs).isEmpty
                         | none => false)
                    | none => false)
               | none => false)
          | none => false)
     | none => false)

/-- `[body, caption].filter(Boolean).join(sep)`. -/
def joinNE (sep : List Char) (parts : List (List Char)) : List Char :=
  match parts.filter (fun p => !p.isEmpty) with
  | [] => []
  | p :: ps => ps.foldl (fun acc q => acc ++ sep ++ q) p

def runReceiptRulesL (combined : List Char) (mimetype : String) (visual : Option Dec)
    (flag : Bool) : ScoreOut :=
  applyMpRule combined flag 12
    (applyVisualRule combined mimetype visual
      (applyMpRule combined flag 10
        (applyTripleZero combined
          (applySafetyRule combined
            (scoreReceiptTextL combined)))))

/-- `textForTag = [body, caption].filter(Boolean).join(" ")`. -/
def textForTagOf (m : Msg) : List Char :=
  joinNE " ".data [m.body.data, jsTrim m.caption.data]

/-- The `#p:` tag / page-lookup resolution: (project_id, page_id, slug). -/
def resolveMsg (env : Env) (m : Msg) : Option String × Option String × Option String :=
  match tagMatch (textForTagOf m) with
  | some sl =>
      (match env.pageForSlug (String.mk sl) with
       | some pg =>
           ((if pg.projectId.isSome then pg.projectId else env.lineProjectId),
             some pg.id, some pg.slug)
       | none => (env.lineProjectId, none, some (String.mk sl)))
  | none => (env.lineProjectId, none, none)

/-- The lead key `(project_id, contact)` written by both lead paths. -/
def leadKeyOf (env : Env) (m : Msg) : Option String × String :=
  ((resolveMsg env m).1, String.mk (jidContact (lowerL m.fromJid.data)))

/-- Insert-if-absent (the select-then-insert path and the upsert both add
at most one row per key). -/
def addLead (l : List (Option String × String)) (k : Option String × String) :
    List (Option String × String) :=
  if k ∈ l then l else k :: l

/-- Number of conversion rows the media branch inserts for this message
(0 or 1): the media/mimetype guards, OCR + scoring + normalization rules
and the accept gate. -/
def mediaConvInc (env : Env) (m : Msg) : ℕ :=
  if m.hasMedia || m.mtype == "image" || m.mtype == "document" then
    match m.media with
    | some med =>
        if med.dataPresent &&
            (isRasterMime med.mimetype || med.mimetype == "application/pdf") then
          let cap := jsTrim (if m.caption.isEmpty then m.body.data else m.caption.data)
          let combined := joinNE "\n".data [cap, med.ocrText.data]
          if receiptAccept (runReceiptRulesL combined med.mimetype med.visual env.mpFlag)
          then 1 else 0
        else 0
    | none => 0
  else 0

/-- `recordIncomingChat`, cut after `k` persistence steps (modelling an
exception thrown at that point); the seen-set insertion and the
jid/self checks are synchronous and precede every fallible step.
Steps: 1 = after the seen-set insertion, 2 = after the chat insert,
3 = after the lead-once insert, 4 = after the trigger-lead upsert,
5 (or more) = the full run including the media branch. -/
def recordPartial (env : Env) (s : Sys) (m : Msg) (k : ℕ) : Sys :=
  match m.idSer with
  | none => s
  | some key =>
      if key ∈ s.seen then s
      else if k = 0 then s
      else
        let s1 : Sys := { s with seen := key :: s.seen }
        if !endsWithL "@c.us".data (lowerL m.fromJid.data) || m.fromMe then s1
        else if k = 1 then s1
        else
          let s2 : Sys := { s1 with chats := s1.chats + 1 }
          if k = 2 then s2
          else
            let s3 : Sys := { s2 with leads := addLead s2.leads (leadKeyOf env m) }
            if k = 3 then s3
            else
              let s4 : Sys :=
                { s3 with leads :=
                    if leadTrigger (lowerL (textForTagOf m)) then
                      addLead s3.leads (leadKeyOf env m)
                    else s3.leads }
              if k = 4 then s4
              else { s4 with conversions := s4.conversions + mediaConvInc env m }

/-- `recordIncomingChat` run to completion. -/
def record (env : Env) (s : Sys) (m : Msg) : Sys := recordPartial env s m 5

/-! ## Supporting lemmas -/

theorem Dec.lt_def (a b : Dec) : a < b ↔ a.n * (10 : ℤ) ^ b.e < b.n * (10 : ℤ) ^ a.e :=
  Iff.rfl

theorem Dec.pos_iff (a : Dec) : Dec.ofInt 0 < a ↔ (0 : ℚ) < a.toRat := by
  rw [Dec.lt_iff_toRat, Dec.toRat_ofInt]
  norm_num

theorem Dec.lt1000_iff (a : Dec) : a < Dec.ofInt 1000 ↔ a.toRat < 1000 := by
  rw [Dec.lt_iff_toRat, Dec.toRat_ofInt]
  norm_num

theorem Dec.n_ne_zero_of_pos (a : Dec) (h : (0 : ℚ) < a.toRat) : a.n ≠ 0 := by
  intro h0
  rw [Dec.toRat, h0] at h
  simp at h

/-- The accept gate holds exactly when the score is at least 4 and the
amount is a positive number. -/
theorem receiptAccept_iff (st : ScoreOut) :
    receiptAccept st = true ↔
      4 ≤ st.score ∧ ∃ a, st.amount = some a ∧ (0 : ℚ) < a.toRat := by
  unfold receiptAccept
  cases hA : st.amount with
  | none => simp [hA]
  | some a =>
      simp only [hA, Bool.and_eq_true, decide_eq_true_eq, bne_iff_ne, ne_eq,
        Option.some.injEq]
      constructor
      · rintro ⟨h4, _, hp⟩
        exact ⟨h4, a, rfl, (Dec.pos_iff a).1 hp⟩
      · rintro ⟨h4, b, rfl, hp⟩
        exact ⟨h4, Dec.n_ne_zero_of_pos a hp, (Dec.pos_iff a).2 hp⟩

/-! ## Claim C1 -/

/-- C1: for every inbound media message reaching the scoring step, a
conversion record is created (and the agenda row moved to
`status=conversion`) if and only if, after the amount-normalization rules,
`score ≥ 4` and the amount is a positive number; when the gate fails, no
conversion, upload, or agenda conversion update occurs for that message. -/
theorem c1_accept_gate (combined mimetype : String) (visual : Option Dec)
    (flag pid hasData : Bool) :
    ((mediaBranch combined mimetype visual flag pid hasData).conversionInserted = true ↔
      (4 ≤ (runReceiptRules combined mimetype visual flag).score ∧
        ∃ a, (runReceiptRules combined mimetype visual flag).amount = some a ∧
          (0 : ℚ) < a.toRat)) ∧
    ((mediaBranch combined mimetype visual flag pid hasData).conversionInserted = false →
      (mediaBranch combined mimetype visual flag pid hasData).uploadAttempted = false ∧
      (mediaBranch combined mimetype visual flag pid hasData).agendaSetConversion = false ∧
      (mediaBranch combined mimetype visual flag pid hasData).capiPurchase = false) := by
  unfold mediaBranch
  by_cases hacc : receiptAccept (runReceiptRules combined mimetype visual flag) = true
  · rw [if_pos hacc]
    refine ⟨?_, ?_⟩
    · simpa using (receiptAccept_iff _).1 hacc
    · intro hfalse
      simp at hfalse
  · rw [if_neg hacc]
    refine ⟨?_, fun _ => ⟨rfl, rfl, rfl⟩⟩
    simp only [show (false = true) = False by simp, false_iff]
    intro hrhs
    exact hacc ((receiptAccept_iff _).2 hrhs)

theorem applyMpRule_some (combined : List Char) (flag : Bool) (bump : ℕ)
    (sc : ℕ) (pr : Option String) (v : Dec) :
    applyMpRule combined flag bump ⟨sc, some v, pr⟩ =
      if (flag && isMPText combined && decide (Dec.ofInt 0 < v) &&
          decide (v < Dec.ofInt 1000)) = true then
        ⟨max sc bump, some v.mul1000, jsOrProvider pr "Mercado Pago"⟩
      else ⟨sc, some v, pr⟩ := rfl

theorem applyTripleZero_some (combined : List Char) (sc : ℕ) (pr : Option String)
    (v : Dec) :
    applyTripleZero combined ⟨sc, some v, pr⟩ =
      if (decide (v < Dec.ofInt 1000) && hasOcrTripleZero combined) = true then
        ⟨max sc 10, some v.mul1000, pr⟩
      else ⟨sc, some v, pr⟩ := rfl

/-! ## Claim C9 -/

/-- C9: an amount produced by the triple-zero or Mercado-Pago ×1000 rule
never exceeds 10,000,000 after the multiplication (the rules only fire
below 1000, so the product stays below 1,000,000); when no multiplication
happens the amount is returned unchanged. -/
theorem c9_multiply_bound (combined : List Char) (flag : Bool) (bump : ℕ)
    (st : ScoreOut) (v w : Dec) (hv : st.amount = some v) :
    ((applyMpRule combined flag bump st).amount = some w →
      w = v ∨ (w.toRat = 1000 * v.toRat ∧ w.toRat ≤ 10000000)) ∧
    ((applyTripleZero combined st).amount = some w →
      w = v ∨ (w.toRat = 1000 * v.toRat ∧ w.toRat ≤ 10000000)) := by
  obtain ⟨sc, am, pr⟩ := st
  simp only at hv
  subst hv
  constructor
  · intro hw
    rw [applyMpRule_some] at hw
    by_cases hc : (flag && isMPText combined && decide (Dec.ofInt 0 < v) &&
        decide (v < Dec.ofInt 1000)) = true
    · rw [if_pos hc] at hw
      simp only [Option.some.injEq] at hw
      subst hw
      right
      have hlt : v.toRat < 1000 := by
        have h2 := hc
        simp only [Bool.and_eq_true, decide_eq_true_eq] at h2
        exact (Dec.lt1000_iff v).1 h2.2
      refine ⟨Dec.toRat_mul1000 v, ?_⟩
      rw [Dec.toRat_mul1000]
      linarith
    · rw [if_neg hc] at hw
      simp only [Option.some.injEq] at hw
      exact Or.inl hw.symm
  · intro hw
    rw [applyTripleZero_some] at hw
    by_cases hc : (decide (v < Dec.ofInt 1000) && hasOcrTripleZero combined) = true
    · rw [if_pos hc] at hw
      simp only [Option.some.injEq] at hw
      subst hw
      right
      have hlt : v.toRat < 1000 := by
        have h2 := hc
        simp only [Bool.and_eq_true, decide_eq_true_eq] at h2
        exact (Dec.lt1000_iff v).1 h2.1
      refine ⟨Dec.toRat_mul1000 v, ?_⟩
      rw [Dec.toRat_mul1000]
      linarith
    · rw [if_neg hc] at hw
      simp only [Option.some.injEq] at hw
      exact Or.inl hw.symm

/-- Witness for C9 at the boundary candidate `$999.99` under the
Mercado-Pago rule: `999.99 × 1000 = 999990 ≤ 10,000,000`. -/
theorem c9_multiply_bound_witness :
    ((⟨5, some ⟨99999, 2⟩, none⟩ : ScoreOut).amount = some ⟨99999, 2⟩) ∧
    ((Dec.mk 99999000 2) = ⟨99999, 2⟩ ∨
      ((Dec.mk 99999000 2).toRat = 1000 * (Dec.mk 99999 2).toRat ∧
       (Dec.mk 99999000 2).toRat ≤ 10000000)) := by
  refine ⟨rfl, ?_⟩
  exact (c9_multiply_bound "mercado pago".data true 10 ⟨5, some ⟨99999, 2⟩, none⟩
    ⟨99999, 2⟩ ⟨99999000, 2⟩ rfl).1 (by decide)

/-! ## Claim C5 -/

/-- Claim C5 as stated: with the flag on, the Mercado-Pago rule multiplies
by 1000 exactly when the PROVIDER is Mercado Pago and the amount after the
preceding rules is in (0, 1000). -/
def ClaimC5 : Prop :=
  ∀ (combined : String) (v : Dec),
    (applyTripleZero combined.data (applySafetyRule combined.data
      (scoreReceiptTextL combined.data))).provider = some "Mercado Pago" →
    (applyTripleZero combined.data (applySafetyRule combined.data
      (scoreReceiptTextL combined.data))).amount = some v →
    (0 : ℚ) < v.toRat → v.toRat < 1000 →
    (applyMpRule combined.data true 10
      (applyTripleZero combined.data (applySafetyRule combined.data
        (scoreReceiptTextL combined.data)))).amount = some v.mul1000

/-- C5 counterexample: on the text `"pagaste $ 500"` the template parser
sets provider `Mercado Pago` (via `pagaste`) and the amount is 500, but
the rule does NOT fire because its real trigger is
`/mercado\s*pago/i.test(combined)`, which fails here. -/
theorem c5_counterexample : ¬ClaimC5 := by
  intro h
  have hpre : applyTripleZero "pagaste $ 500".data (applySafetyRule "pagaste $ 500".data
      (scoreReceiptTextL "pagaste $ 500".data)) =
      ⟨8, some ⟨500, 0⟩, some "Mercado Pago"⟩ := by decide
  have h2 := h "pagaste $ 500" ⟨500, 0⟩
    (by rw [hpre]) (by rw [hpre])
    (by norm_num [Dec.toRat]) (by norm_num [Dec.toRat])
  have h3 : (applyMpRule "pagaste $ 500".data true 10
      (applyTripleZero "pagaste $ 500".data (applySafetyRule "pagaste $ 500".data
        (scoreReceiptTextL "pagaste $ 500".data)))).amount = some ⟨500, 0⟩ := by decide
  rw [h2] at h3
  have : (Dec.mk 500 0).mul1000 = ⟨500, 0⟩ := by
    simpa using h3
  simp [Dec.mul1000] at this

/-- C5 amended: the rule multiplies by 1000 exactly when the flag is on,
the COMBINED TEXT matches `/mercado\s*pago/i`, and `0 < amount < 1000`;
it bumps the score to at least the bump value (10 on the first pass) and
forces the provider label. -/
theorem c5_mp_rule_trigger (combined : List Char) (flag : Bool) (bump : ℕ)
    (sc : ℕ) (pr : Option String) (v : Dec) :
    (flag = true → isMPText combined = true → (0 : ℚ) < v.toRat → v.toRat < 1000 →
      applyMpRule combined flag bump ⟨sc, some v, pr⟩ =
        ⟨max sc bump, some v.mul1000, jsOrProvider pr "Mercado Pago"⟩) ∧
    ((flag = false ∨ isMPText combined = false ∨ ¬((0 : ℚ) < v.toRat) ∨
        ¬(v.toRat < 1000)) →
      applyMpRule combined flag bump ⟨sc, some v, pr⟩ = ⟨sc, some v, pr⟩) ∧
    (10 ≤ bump → flag = true → isMPText combined = true → (0 : ℚ) < v.toRat →
      v.toRat < 1000 →
      10 ≤ (applyMpRule combined flag bump ⟨sc, some v, pr⟩).score) := by
  refine ⟨?_, ?_, ?_⟩
  · intro hf hmp hp hlt
    rw [applyMpRule_some, if_pos]
    simp only [hf, hmp, Bool.and_eq_true, decide_eq_true_eq, true_and]
    exact ⟨(Dec.pos_iff v).2 hp, (Dec.lt1000_iff v).2 hlt⟩
  · intro hneg
    rw [applyMpRule_some, if_neg]
    intro hc
    simp only [Bool.and_eq_true, decide_eq_true_eq] at hc
    obtain ⟨⟨⟨hf1, hmp1⟩, hp1⟩, hlt1⟩ := hc
    rcases hneg with hf | hmp | hp | hlt
    · rw [hf] at hf1
      exact Bool.false_ne_true hf1
    · rw [hmp] at hmp1
      exact Bool.false_ne_true hmp1
    · exact hp ((Dec.pos_iff v).1 hp1)
    · exact hlt ((Dec.lt1000_iff v).1 hlt1)
  · intro hb hf hmp hp hlt
    rw [applyMpRule_some, if_pos]
    · simp only
      omega
    · simp only [hf, hmp, Bool.and_eq_true, decide_eq_true_eq, true_and]
      exact ⟨(Dec.pos_iff v).2 hp, (Dec.lt1000_iff v).2 hlt⟩

/-- Witness for the amended C5 at a concrete firing instance. -/
theorem c5_mp_rule_trigger_witness :
    applyMpRule "mercado pago".data true 10 ⟨5, some ⟨500, 0⟩, none⟩ =
      ⟨max 5 10, some (Dec.mk 500 0).mul1000, jsOrProvider none "Mercado Pago"⟩ :=
  (c5_mp_rule_trigger "mercado pago".data true 10 5 none ⟨500, 0⟩).1
    rfl (by decide) (by norm_num [Dec.toRat]) (by norm_num [Dec.toRat])

/-! ## Claim C6 -/

/-- Claim C6 as stated: in every reachable in-memory line state,
`phone ≠ null → status = ready` and `last_qr ≠ null → status = qr`. -/
def ClaimC6 : Prop :=
  ∀ evs : List LEvent,
    ((lineRun evs).phone ≠ none → (lineRun evs).status = LStatus.ready) ∧
    ((lineRun evs).lastQr ≠ none → (lineRun evs).status = LStatus.qr)

/-- C6 counterexample: `setState` merges patches, so after
`qr → ready(phone) → loading_screen` the state keeps both the phone and
the QR while the status is `loading`; both implications of the claimed
invariant fail (already `qr → authenticated`, the normal pairing flow,
violates the second one). -/
theorem c6_counterexample : ¬ClaimC6 := by
  intro h
  have hrun : lineRun [LEvent.qrEvt "qr-data", LEvent.readyEvt (some "5491100000000"),
      LEvent.loadingScreen] =
      ⟨LStatus.loading, some "5491100000000", some "qr-data"⟩ := by decide
  have h1 := (h [LEvent.qrEvt "qr-data", LEvent.readyEvt (some "5491100000000"),
      LEvent.loadingScreen]).1
  rw [hrun] at h1
  have h2 := h1 (by simp)
  simp at h2

def LineInv (st : LineSt) : Prop :=
  (st.phone ≠ none →
    st.status = LStatus.ready ∨ st.status = LStatus.loading ∨
    st.status = LStatus.authenticated) ∧
  (st.lastQr ≠ none →
    st.status = LStatus.qr ∨ st.status = LStatus.loading ∨
    st.status = LStatus.authenticated ∨ st.status = LStatus.ready)

theorem lineStep_inv (st : LineSt) (e : LEvent) : LineInv (lineStep st e) := by
  cases e <;> simp [lineStep, LineInv, lineInit]

/-- C6 amended: in every reachable state, a non-null phone implies status
in ready / loading / authenticated (the merge-semantics of `setState`
keeps the phone through `loading_screen` and `authenticated`), and a
non-null QR implies status in qr / loading / authenticated / ready. -/
theorem c6_line_invariant : ∀ evs : List LEvent, LineInv (lineRun evs) := by
  have haux : ∀ (evs : List LEvent) (st : LineSt), LineInv st →
      LineInv (evs.foldl lineStep st) := by
    intro evs
    induction evs with
    | nil => exact fun _ h => h
    | cons e t ih => exact fun st _ => ih (lineStep st e) (lineStep_inv st e)
  intro evs
  exact haux evs lineInit (by simp [LineInv, lineInit])

/-! ## Claim C4 -/

/-- Claim C4 as stated: the visual fallback returns the maximum positive
value across all tiles of the 4×6 grid (or null when no tile yields one). -/
def ClaimC4 : Prop :=
  ∀ (mimetype : String) (o : TileOcr),
    isRasterMime mimetype = true →
    tryExtractAmountFromImage true mimetype o = tileMax o

/-- An oracle whose first tile reads `$ 12` and whose second reads
`$ 999`. -/
def tileOcr0 : TileOcr :=
  ⟨fun r c p q =>
      if r.val == 0 && c.val == 0 && p.val == 0 && q.val == 0 then some "$ 12"
      else if r.val == 0 && c.val == 1 && p.val == 0 && q.val == 0 then some "$ 999"
      else none,
    fun _ _ => true⟩

/-- C4 counterexample: both tile loops carry `&& !best`, so the function
returns the FIRST positive tile value (12), not the maximum (999). -/
theorem c4_counterexample : ¬ClaimC4 := by
  intro h
  have h1 := h "image/png" tileOcr0 (by decide)
  have h2 : tryExtractAmountFromImage true "image/png" tileOcr0 = some ⟨12, 0⟩ := by
    decide
  have h3 : tileMax tileOcr0 = some ⟨999, 0⟩ := by decide
  rw [h2, h3] at h1
  exact absurd h1 (by decide)

theorem foldl_firstHit_aux {α β : Type} (f : α → Option β) (t : List α) (b : β) :
    t.foldl (fun acc x => match acc with | some _ => acc | none => f x) (some b) =
      some b := by
  induction t with
  | nil => rfl
  | cons a t ih => exact ih

theorem foldl_firstHit {α β : Type} (f : α → Option β) (l : List α) :
    firstHitFold f l = (l.filterMap f).head? := by
  unfold firstHitFold
  induction l with
  | nil => rfl
  | cons a t ih =>
      cases h : f a with
      | none => simpa [List.filterMap_cons, h] using ih
      | some b => simp [List.filterMap_cons, h, foldl_firstHit_aux]

/-- C4 amended: the visual fallback returns the value of the FIRST tile,
in row-major order, that yields a positive reading (within a tile the
three pre-process variants are tried in order, psm 6 before psm 7), and
null when no tile yields one. -/
theorem c4_first_tile (sharpAvail : Bool) (mimetype : String) (o : TileOcr) :
    tryExtractAmountFromImage sharpAvail mimetype o =
      if sharpAvail && isRasterMime mimetype then
        (orderedTiles.filterMap fun rc => tileValue o rc.1 rc.2).head?
      else none := by
  unfold tryExtractAmountFromImage
  cases sharpAvail with
  | false => simp
  | true =>
      cases hr : isRasterMime mimetype with
      | false => simp [hr]
      | true =>
          simp only [hr, Bool.not_true, Bool.false_eq_true, if_false, Bool.and_self,
            if_true]
          exact foldl_firstHit _ _

/-! ## Claim C3 -/

def c3Text : String := "Mercado Pago\nPagaste\n$ 15.000,00\nReferencia: AB-12"

/-- C3: the claim is right about the intent but the code loses the token:
`RE_REF` is a global regex, so `norm.match(RE_REF)` returns full-match
strings and `[2]` is the (absent) third match — the regex does find
`Referencia: AB-12`, yet the conversion's `reference` is null, not
`"AB-12"`. -/
theorem c3_reference_lost :
    refMatches (tplNorm c3Text.data) = ["Referencia: AB-12".data] ∧
    conversionReference c3Text = none := by
  constructor
  · decide
  · decide

/-! ## Claim C2 -/

/-- All capture groups `m[1]` of the template amount regex on one line. -/
def tplAmtGroupMatches : ℕ → List Char → List (List Char)
  | 0, _ => []
  | _ + 1, [] => []
  | n + 1, c :: cs =>
      match tplAmtAt (c :: cs) with
      | some (g, _, rest) => g :: tplAmtGroupMatches n rest
      | none => tplAmtGroupMatches n cs

/-- Modelled from the claim's words: collect the `$`-led amount candidates
of EVERY qualifying line of the normalized text, parse each with the
Numeric Normalizer, keep the MAXIMUM; fall back to the maximum `$`-led
numeric of the whole text only when no per-line candidate parsed. -/
def parseByTemplateClaimAmount (text : List Char) : Option Dec :=
  if text.isEmpty then none
  else
    let all := tplNorm text
    let lns := tplLines text
    TPLS.findSome? fun tpl =>
      if !tpl.test all then none
      else
        let cands := lns.flatMap fun ln =>
          if tpl.amountLine ln || ln.contains '$' then
            (tplAmtGroupMatches ln.length ln).filterMap toNumberARSL
          else []
        let best :=
          if cands.isEmpty then tplFallbackFold all none
          else cands.foldl
            (fun b v =>
              match b with
              | none => some v
              | some m => some (m.maxD v)) none
        match best with
        | some b => if decide (Dec.ofInt 0 < b) then some b else none
        | none => none

/-- Claim C2 as stated: on any text where a registry entry matches, the
parser's amount is the per-line maximum of all candidates (with the
whole-text fallback). -/
def ClaimC2 : Prop :=
  ∀ t : String, (parseByTemplate t).matched = true →
    (parseByTemplate t).amount = parseByTemplateClaimAmount t.data

set_option maxHeartbeats 2000000 in
/-- C2 counterexample: on `"pagaste $ 200 y $ 900"` the code returns 200
(the first `$`-led token of the single normalized line — whitespace
collapsing makes the whole text one line and `_extractAmountFromLine`
takes only the first match), while the claimed maximum is 900. -/
theorem c2_counterexample : ¬ClaimC2 := by
  intro h
  have h1 := h "pagaste $ 200 y $ 900" (by decide)
  have h2 : (parseByTemplate "pagaste $ 200 y $ 900").amount = some ⟨200, 0⟩ := by decide
  have h3 : parseByTemplateClaimAmount "pagaste $ 200 y $ 900".data = some ⟨900, 0⟩ := by
    decide
  rw [h2, h3] at h1
  exact absurd h1 (by decide)

/-! Supporting lemmas for the amended C2: the normalized text is a single
line. -/

theorem mem_wsCollapseF (n : ℕ) :
    ∀ (cs : List Char) (c : Char), c ∈ wsCollapseF n cs → cs.length ≤ n →
      c = ' ' ∨ jsWs c = false := by
  induction n with
  | zero =>
      intro cs c hc hlen
      have : cs = [] := List.eq_nil_of_length_eq_zero (Nat.le_zero.1 hlen)
      subst this
      simp [wsCollapseF] at hc
  | succ n ih =>
      intro cs c hc hlen
      match cs with
      | [] => simp [wsCollapseF] at hc
      | c0 :: cs' =>
          by_cases h0 : jsWs c0 = true
          · rw [show wsCollapseF (n + 1) (c0 :: cs') =
                ' ' :: wsCollapseF n (cs'.dropWhile jsWs) by simp [wsCollapseF, h0]] at hc
            rcases List.mem_cons.1 hc with h | h
            · exact Or.inl h
            · refine ih _ _ h ?_
              have h1 : (cs'.dropWhile jsWs).length ≤ cs'.length :=
                List.Sublist.length_le (List.dropWhile_sublist _)
              simp only [List.length_cons] at hlen
              omega
          · rw [show wsCollapseF (n + 1) (c0 :: cs') =
                c0 :: wsCollapseF n cs' by simp [wsCollapseF, h0]] at hc
            rcases List.mem_cons.1 hc with h | h
            · subst h
              exact Or.inr (by simpa using h0)
            · refine ih _ _ h ?_
              simp only [List.length_cons] at hlen
              omega

theorem mem_jsTrim (cs : List Char) (c : Char) (h : c ∈ jsTrim cs) : c ∈ cs := by
  unfold jsTrim at h
  rw [List.mem_reverse] at h
  have h1 := (List.dropWhile_sublist (l := (cs.dropWhile jsWs).reverse) (p := jsWs)).mem h
  rw [List.mem_reverse] at h1
  exact (List.dropWhile_sublist (l := cs) (p := jsWs)).mem h1

theorem tplNorm_mem (text : List Char) (c : Char) (h : c ∈ tplNorm text) :
    c = ' ' ∨ jsWs c = false := by
  unfold tplNorm at h
  have h1 := mem_jsTrim _ _ h
  exact mem_wsCollapseF _ _ _ h1 le_rfl

theorem splitOnC_single (sep : Char) (cs : List Char)
    (h : ∀ c ∈ cs, (c == sep) = false) : splitOnC sep cs = [cs] := by
  induction cs with
  | nil => rfl
  | cons c cs ih =>
      have hstep : splitOnC sep (c :: cs) =
          (match splitOnC sep cs with
           | [] => if c == sep then [[], []] else [[c]]
           | g :: gs => if c == sep then [] :: g :: gs else (c :: g) :: gs) := rfl
      rw [hstep, ih (fun x hx => h x (List.mem_cons_of_mem c hx))]
      simp [h c (List.mem_cons_self c cs)]

theorem dropWhile_head_not (p : Char → Bool) (l : List Char) :
    ∀ h, (l.dropWhile p).head? = some h → p h = false := by
  induction l with
  | nil => intro h hh; simp at hh
  | cons c t ih =>
      intro h hh
      by_cases hc : p c = true
      · rw [List.dropWhile_cons_of_pos hc] at hh
        exact ih h hh
      · rw [List.dropWhile_cons_of_neg hc] at hh
        simp only [List.head?_cons, Option.some.injEq] at hh
        subst hh
        simpa using hc

theorem dropWhile_eq_self (p : Char → Bool) (l : List Char)
    (h : ∀ x, l.head? = some x → p x = false) : l.dropWhile p = l := by
  cases l with
  | nil => rfl
  | cons c t => exact List.dropWhile_cons_of_neg (by simp [h c rfl])

theorem getLast?_dropWhile (p : Char → Bool) (l : List Char)
    (h : l.dropWhile p ≠ []) : (l.dropWhile p).getLast? = l.getLast? := by
  conv_rhs => rw [← List.takeWhile_append_dropWhile (p := p) (l := l)]
  rw [List.getLast?_append_of_ne_nil _ h]

theorem jsTrim_idem (cs : List Char) : jsTrim (jsTrim cs) = jsTrim cs := by
  show jsTrim (((cs.dropWhile jsWs).reverse.dropWhile jsWs).reverse) = _
  by_cases hBnil : (cs.dropWhile jsWs).reverse.dropWhile jsWs = []
  · simp [jsTrim, hBnil]
  · unfold jsTrim
    have h1 : ((cs.dropWhile jsWs).reverse.dropWhile jsWs).reverse.dropWhile jsWs =
        ((cs.dropWhile jsWs).reverse.dropWhile jsWs).reverse := by
      apply dropWhile_eq_self
      intro x hx
      rw [List.head?_reverse] at hx
      rw [getLast?_dropWhile _ _ hBnil, List.getLast?_reverse] at hx
      exact dropWhile_head_not jsWs cs x hx
    rw [h1, List.reverse_reverse]
    have h2 : (cs.dropWhile jsWs).reverse.dropWhile jsWs =
        ((cs.dropWhile jsWs).reverse.dropWhile jsWs).dropWhile jsWs := by
      refine (dropWhile_eq_self _ _ ?_).symm
      intro x hx
      exact dropWhile_head_not jsWs (cs.dropWhile jsWs).reverse x hx
    rw [← h2]

theorem jsTrim_tplNorm (text : List Char) : jsTrim (tplNorm text) = tplNorm text := by
  show jsTrim (jsTrim _) = jsTrim _
  exact jsTrim_idem _

/-- The normalized text has no newline, hence exactly one (possibly empty)
line. -/
theorem tplLines_single (text : List Char) :
    tplLines text = if (tplNorm text).isEmpty then [] else [tplNorm text] := by
  unfold tplLines
  have hnolf : ∀ c ∈ tplNorm text, (c == '\n') = false := by
    intro c hc
    rcases tplNorm_mem text c hc with h | h
    · subst h; decide
    · simp only [beq_eq_false_iff_ne, ne_eq]
      intro h2
      subst h2
      simp [jsWs] at h
  rw [splitOnC_single _ _ hnolf]
  simp only [List.map_cons, List.map_nil, jsTrim_tplNorm, List.filter]
  by_cases h : (tplNorm text).isEmpty <;> simp [h]

/-- The amended C2 per-template body: the single normalized line's FIRST
`$`-led candidate, then the whole-text fallback, then positivity. -/
def tplTryEntryAmended (tpl : TplEntry) (all : List Char) : Option TplResult :=
  if !tpl.test all then none
  else
    let firstCand : Option Dec :=
      if !all.isEmpty && (tpl.amountLine all || all.contains '$') then
        extractAmountFromLine all
      else none
    tplFinish tpl all
      (if jsFalsyD firstCand then tplFallbackFold all firstCand else firstCand)

def parseByTemplateAmendedL (text : List Char) : TplResult :=
  if text.isEmpty then TplResult.noMatch
  else
    match TPLS.findSome? (fun tpl => tplTryEntryAmended tpl (tplNorm text)) with
    | some r => r
    | none => TplResult.noMatch

theorem tplTryEntry_amended (tpl : TplEntry) (text : List Char) :
    tplTryEntry tpl (tplNorm text) (tplLines text) =
      tplTryEntryAmended tpl (tplNorm text) := by
  rw [tplLines_single]
  generalize tplNorm text = all
  unfold tplTryEntry tplTryEntryAmended
  by_cases htest : tpl.test all = true
  · by_cases hx : all.isEmpty
    · simp [htest, hx]
    · by_cases hq : (tpl.amountLine all || all.contains '$') = true
      · cases hext : extractAmountFromLine all with
        | none => simp [htest, hx, hq, hext, jsBestUpd]
        | some v => simp [htest, hx, hq, hext, jsBestUpd]
      · have hq2 : ¬(tpl.amountLine all = true ∨ '$' ∈ all) := by simpa using hq
        simp [htest, hx, hq2]
  · simp [htest]

/-- C2 amended: the Template Parser's per-entry amount comes from the
SINGLE line of the normalized text (whitespace collapsing removes all
newlines) and is the FIRST `$`-led numeric of that line, not the maximum;
the whole-text fallback applies when that candidate is null or zero. -/
theorem c2_single_line_first_candidate (text : List Char) :
    parseByTemplateL text = parseByTemplateAmendedL text := by
  unfold parseByTemplateL parseByTemplateAmendedL
  by_cases hempty : text.isEmpty
  · simp [hempty]
  · simp only [hempty, Bool.false_eq_true, if_false]
    have : (fun tpl => tplTryEntry tpl (tplNorm text) (tplLines text)) =
        (fun tpl => tplTryEntryAmended tpl (tplNorm text)) :=
      funext fun tpl => tplTryEntry_amended tpl text
    rw [this]

/-! ## Claims C7 and C10 -/

theorem addLead_length (l : List (Option String × String)) (k : Option String × String) :
    (addLead l k).length ≤ l.length + 1 := by
  unfold addLead
  split
  · exact Nat.le_succ _
  · simp

theorem addLead_absorb (l : List (Option String × String)) (k : Option String × String) :
    addLead (addLead l k) k = addLead l k := by
  unfold addLead
  by_cases h : k ∈ l
  · simp [h]
  · simp [h]

theorem mediaConvInc_le (env : Env) (m : Msg) : mediaConvInc env m ≤ 1 := by
  unfold mediaConvInc
  repeat' split
  all_goals try omega
  all_goals dsimp only
  all_goals split <;> omega

/-- A message whose ID is already in the seen set is a complete no-op. -/
theorem record_seen (env : Env) (s : Sys) (m : Msg) (key : String)
    (hid : m.idSer = some key) (hseen : key ∈ s.seen) : record env s m = s := by
  unfold record recordPartial
  split
  · rfl
  · rename_i key2 heq
    rw [hid] at heq
    cases heq
    exact if_pos hseen

/-- Full-run characterization of a fresh, individual, non-self message:
one new seen id, exactly one chat row, at most one lead row, the media
branch's 0-or-1 conversion rows. -/
theorem record_run (env : Env) (s : Sys) (m : Msg) (key : String)
    (hid : m.idSer = some key) (hseen : key ∉ s.seen)
    (hjid : endsWithL "@c.us".data (lowerL m.fromJid.data) = true)
    (hme : m.fromMe = false) :
    record env s m =
      ⟨key :: s.seen, s.chats + 1, addLead s.leads (leadKeyOf env m),
        s.conversions + mediaConvInc env m⟩ := by
  unfold record recordPartial
  split
  · rename_i heq
    rw [hid] at heq
    cases heq
  · rename_i key2 heq
    rw [hid] at heq
    cases heq
    rw [if_neg hseen]
    simp only [hjid, hme, Bool.not_true, Bool.or_false, Bool.false_eq_true, if_false,
      OfNat.ofNat_ne_zero, OfNat.ofNat_ne_one]
    norm_num
    by_cases htrig : leadTrigger (lowerL (textForTagOf m)) = true
    · simp [htrig, addLead_absorb]
    · simp [htrig]

/-- C7: within one process, a second delivery of a message with an
already-seen canonical ID is a no-op, so replaying the same external
message ID yields exactly one chat row, at most one lead row and at most
one conversion row. -/
theorem c7_replay_dedupe (env : Env) (s : Sys) (m : Msg) (key : String)
    (hid : m.idSer = some key) (hseen : key ∉ s.seen)
    (hjid : endsWithL "@c.us".data (lowerL m.fromJid.data) = true)
    (hme : m.fromMe = false) :
    record env (record env s m) m = record env s m ∧
    (record env s m).chats = s.chats + 1 ∧
    (record env s m).conversions ≤ s.conversions + 1 ∧
    (record env s m).leads.length ≤ s.leads.length + 1 := by
  have hrun := record_run env s m key hid hseen hjid hme
  refine ⟨?_, ?_, ?_, ?_⟩
  · rw [hrun]
    exact record_seen env _ m key hid (List.mem_cons_self _ _)
  · rw [hrun]
  · rw [hrun]
    have := mediaConvInc_le env m
    simp only
    omega
  · rw [hrun]
    exact addLead_length _ _

def env0 : Env := ⟨none, fun _ => none, true⟩

def msg0 : Msg := ⟨some "wamid.1", "5491122334455@c.us", false, "hola", "", false, "chat", none⟩

def sys0 : Sys := ⟨[], 0, [], 0⟩

/-- Witness for C7 at a concrete message and empty initial state. -/
theorem c7_replay_dedupe_witness :
    msg0.idSer = some "wamid.1" ∧ "wamid.1" ∉ sys0.seen ∧
    endsWithL "@c.us".data (lowerL msg0.fromJid.data) = true ∧ msg0.fromMe = false ∧
    (record env0 (record env0 sys0 msg0) msg0 = record env0 sys0 msg0 ∧
     (record env0 sys0 msg0).chats = sys0.chats + 1 ∧
     (record env0 sys0 msg0).conversions ≤ sys0.conversions + 1 ∧
     (record env0 sys0 msg0).leads.length ≤ sys0.leads.length + 1) :=
  ⟨rfl, by simp [sys0], by decide, rfl,
    c7_replay_dedupe env0 sys0 msg0 "wamid.1" rfl (by simp [sys0]) (by decide) rfl⟩

/-- Any partial or complete run only grows the seen set. -/
theorem recordPartial_seen_mono (env : Env) (s : Sys) (m : Msg) (k : ℕ) :
    s.seen ⊆ (recordPartial env s m k).seen := by
  unfold recordPartial
  split
  · exact fun x hx => hx
  · rename_i key heq
    by_cases hs : key ∈ s.seen
    · rw [if_pos hs]
      exact fun x hx => hx
    · rw [if_neg hs]
      by_cases hk0 : k = 0
      · rw [if_pos hk0]
        exact fun x hx => hx
      · rw [if_neg hk0]
        repeat' split
        all_goals simp only
        all_goals intro x hx
        all_goals exact List.mem_cons_of_mem _ hx

/-- After at least the first (synchronous) step, the id is in the seen
set. -/
theorem recordPartial_seen_mem (env : Env) (s : Sys) (m : Msg) (key : String) (k : ℕ)
    (hid : m.idSer = some key) (hk : 1 ≤ k) :
    key ∈ (recordPartial env s m k).seen := by
  unfold recordPartial
  split
  · rename_i heq
    rw [hid] at heq
    cases heq
  · rename_i key2 heq
    rw [hid] at heq
    cases heq
    by_cases hs : key ∈ s.seen
    · rw [if_pos hs]
      exact hs
    · rw [if_neg hs]
      rw [if_neg (by omega)]
      repeat' split
      all_goals simp only
      all_goals exact List.mem_cons_self _ _

/-- C10: the canonical ID is added to the seen set synchronously before
any fallible step and never removed, so however early the processing of a
message aborts, any redelivery of that ID within the process is skipped —
a failed message is permanently consumed. -/
theorem c10_seen_before_effects (env : Env) (s : Sys) (m : Msg) (key : String) (k : ℕ)
    (hid : m.idSer = some key) (hk : 1 ≤ k) :
    key ∈ (recordPartial env s m k).seen ∧
    (∀ m2 : Msg, m2.idSer = some key →
      record env (recordPartial env s m k) m2 = recordPartial env s m k) ∧
    s.seen ⊆ (recordPartial env s m k).seen ∧
    (∀ (s2 : Sys) (m3 : Msg), s2.seen ⊆ (record env s2 m3).seen) :=
  ⟨recordPartial_seen_mem env s m key k hid hk,
   fun m2 h2 => record_seen env _ m2 key h2 (recordPartial_seen_mem env s m key k hid hk),
   recordPartial_seen_mono env s m k,
   fun s2 m3 => recordPartial_seen_mono env s2 m3 5⟩

/-- Witness for C10 with an abort right after the seen-set insertion. -/
theorem c10_seen_before_effects_witness :
    msg0.idSer = some "wamid.1" ∧ (1 : ℕ) ≤ 1 ∧
    "wamid.1" ∈ (recordPartial env0 sys0 msg0 1).seen :=
  ⟨rfl, le_refl 1,
    (c10_seen_before_effects env0 sys0 msg0 "wamid.1" 1 rfl (le_refl 1)).1⟩

/-! ## Claim C8

Bare 4-digit year tokens never become Amount-Finder candidates: pass A
requires a `$` on the line, and in pass B the grouped-or-long regex cannot
match inside a text whose maximal digit runs all have length 4 (the
grouped alternative needs a separator after at most 3 digits, the long
alternative needs 5 consecutive digits, and `\b` forbids starting
mid-run).  The year-rejection branch itself is therefore never even
reached for such tokens. -/

theorem beq_char_toNat (c d : Char) : (c == d) = (c.toNat == d.toNat) := by
  by_cases h : c = d
  · subst h
    simp
  · have h2 : c.toNat ≠ d.toNat := fun he => h (Char.eq_of_val_eq (UInt32.ext he))
    simp [h, h2]

theorem isDigit_toNat (c : Char) (h : c.isDigit = true) :
    48 ≤ c.toNat ∧ c.toNat ≤ 57 := by
  simp [Char.isDigit] at h
  obtain ⟨h1, h2⟩ := h
  exact ⟨by exact_mod_cast h1, by exact_mod_cast h2⟩

theorem digit_not_jsWs (c : Char) (h : c.isDigit = true) : jsWs c = false := by
  obtain ⟨h1, h2⟩ := isDigit_toNat c h
  unfold jsWs
  rw [beq_char_toNat, beq_char_toNat, beq_char_toNat, beq_char_toNat,
    beq_char_toNat, beq_char_toNat]
  have e1 : (' ').toNat = 32 := rfl
  have e2 : ('\t').toNat = 9 := rfl
  have e3 : ('\n').toNat = 10 := rfl
  have e4 : ('\r').toNat = 13 := rfl
  have e5 : nbspC.toNat = 160 := rfl
  have e6 : nnspC.toNat = 8239 := rfl
  rw [e1, e2, e3, e4, e5, e6]
  simp only [Bool.or_eq_false_iff, Bool.and_eq_false_iff, beq_eq_false_iff_ne, ne_eq,
    decide_eq_false_iff_not, not_le]
  omega

theorem digit_not_sepFBA (c : Char) (h : c.isDigit = true) : cfgFBA.sepP c = false := by
  obtain ⟨h1, h2⟩ := isDigit_toNat c h
  show (c == '.' || c == ',' || jsWs c) = false
  rw [beq_char_toNat, beq_char_toNat, digit_not_jsWs c h]
  have e1 : ('.').toNat = 46 := rfl
  have e2 : (',').toNat = 44 := rfl
  rw [e1, e2]
  simp only [Bool.or_false, Bool.or_eq_false_iff, beq_eq_false_iff_ne, ne_eq]
  omega

theorem digit_jsWord (c : Char) (h : c.isDigit = true) : jsWord c = true := by
  simp [jsWord, h]

/-- Maximal runs of consecutive digits, fuelled by the input length. -/
def digitRunsF : ℕ → List Char → List (List Char)
  | 0, _ => []
  | _ + 1, [] => []
  | fuel + 1, c :: cs =>
      if c.isDigit then
        (c :: cs.takeWhile Char.isDigit) :: digitRunsF fuel (cs.dropWhile Char.isDigit)
      else digitRunsF fuel cs

/-- The maximal digit runs of a character list, in order. -/
def digitRuns (cs : List Char) : List (List Char) := digitRunsF cs.length cs

theorem digitRunsF_congr : ∀ (fuel fuel' : ℕ) (cs : List Char),
    cs.length ≤ fuel → cs.length ≤ fuel' → digitRunsF fuel cs = digitRunsF fuel' cs := by
  intro fuel
  induction fuel with
  | zero =>
      intro fuel' cs h _
      have hnil : cs = [] := List.length_eq_zero.mp (Nat.le_zero.mp h)
      subst hnil
      cases fuel' <;> rfl
  | succ n ih =>
      intro fuel' cs h h'
      cases cs with
      | nil => cases fuel' <;> rfl
      | cons c cs =>
          cases fuel' with
          | zero => simp at h'
          | succ m =>
              simp only [List.length_cons, Nat.add_le_add_iff_right] at h h'
              by_cases hc : c.isDigit = true
              · simp only [digitRunsF, hc, if_true]
                congr 1
                exact ih m _ (le_trans ((List.dropWhile_sublist _).length_le) h)
                  (le_trans ((List.dropWhile_sublist _).length_le) h')
              · have hc' : c.isDigit = false := by revert hc; cases c.isDigit <;> simp
                simp only [digitRunsF, hc', Bool.false_eq_true, if_false]
                exact ih m _ h h'

theorem digitRuns_cons_digit (c : Char) (cs : List Char) (hc : c.isDigit = true) :
    digitRuns (c :: cs) =
      (c :: cs.takeWhile Char.isDigit) :: digitRuns (cs.dropWhile Char.isDigit) := by
  show digitRunsF (cs.length + 1) (c :: cs) = _
  simp only [digitRunsF, hc, if_true]
  congr 1
  exact digitRunsF_congr cs.length (cs.dropWhile Char.isDigit).length _
    ((List.dropWhile_sublist _).length_le) le_rfl

theorem digitRuns_cons_nondigit (c : Char) (cs : List Char) (hc : c.isDigit = false) :
    digitRuns (c :: cs) = digitRuns cs := by
  show digitRunsF (cs.length + 1) (c :: cs) = _
  simp only [digitRunsF, hc, Bool.false_eq_true, if_false]
  rfl

theorem digitRuns_split (cs : List Char) (h : cs.takeWhile Char.isDigit ≠ []) :
    digitRuns cs = cs.takeWhile Char.isDigit :: digitRuns (cs.dropWhile Char.isDigit) := by
  cases cs with
  | nil => simp at h
  | cons c t =>
      by_cases hc : c.isDigit = true
      · rw [digitRuns_cons_digit c t hc, List.takeWhile_cons_of_pos hc,
          List.dropWhile_cons_of_pos hc]
      · rw [List.takeWhile_cons_of_neg (by simp [hc])] at h
        exact absurd rfl h

theorem dropWhile_of_takeWhile_nil (p : Char → Bool) (cs : List Char)
    (h : cs.takeWhile p = []) : cs.dropWhile p = cs := by
  cases cs with
  | nil => rfl
  | cons c t =>
      by_cases hc : p c = true
      · rw [List.takeWhile_cons_of_pos hc] at h
        cases h
      · rw [List.dropWhile_cons_of_neg (by simp [hc])]

theorem takeWhile_succ (p : Char → Bool) (cs : List Char) (n : ℕ)
    (h : (cs.takeWhile p).length = n + 1) :
    ∃ c t, cs = c :: t ∧ p c = true ∧ (t.takeWhile p).length = n := by
  cases cs with
  | nil => simp at h
  | cons c t =>
      by_cases hc : p c = true
      · rw [List.takeWhile_cons_of_pos hc] at h
        simp only [List.length_cons, Nat.add_right_cancel_iff] at h
        exact ⟨c, t, rfl, hc, h⟩
      · rw [List.takeWhile_cons_of_neg (by simp [hc])] at h
        simp at h

theorem sepGroupChain_nil_of_head (sepP : Char → Bool) (cs : List Char)
    (h : ∀ x, cs.head? = some x → sepP x = false) : sepGroupChain sepP cs = [] := by
  match cs with
  | [] => rfl
  | [a] => rfl
  | [a, b] => rfl
  | [a, b, c] => rfl
  | s :: a :: b :: c :: rest =>
      have hs : sepP s = false := h s rfl
      simp [sepGroupChain, hs]

theorem alt1Match_fba_none (c d2 d3 d4 : Char) (r : List Char)
    (h2 : d2.isDigit = true) (h3 : d3.isDigit = true) (h4 : d4.isDigit = true) :
    alt1Match cfgFBA c (d2 :: d3 :: d4 :: r) = none := by
  have s2 : sepGroupChain cfgFBA.sepP (d2 :: d3 :: d4 :: r) = [] :=
    sepGroupChain_nil_of_head _ _ (fun x hx => by cases hx; exact digit_not_sepFBA _ h2)
  have s3 : sepGroupChain cfgFBA.sepP (d3 :: d4 :: r) = [] :=
    sepGroupChain_nil_of_head _ _ (fun x hx => by cases hx; exact digit_not_sepFBA _ h3)
  have s4 : sepGroupChain cfgFBA.sepP (d4 :: r) = [] :=
    sepGroupChain_nil_of_head _ _ (fun x hx => by cases hx; exact digit_not_sepFBA _ h4)
  unfold alt1Match
  rw [show extraDigitOptions (d2 :: d3 :: d4 :: r) =
      [([d2, d3], d4 :: r), ([d2], d3 :: d4 :: r), ([], d2 :: d3 :: d4 :: r)] from by
    simp [extraDigitOptions, h2, h3]]
  simp [List.findSome?, s2, s3, s4]

theorem alt2Match_fba_none (c : Char) (cs : List Char)
    (h : (cs.takeWhile Char.isDigit).length = 3) :
    alt2Match cfgFBA c cs = none := by
  unfold alt2Match
  simp only [h]
  norm_num

theorem matchGroupedAt_fba_eq (prev : Option Char) (c : Char) (cs : List Char) :
    matchGroupedAt cfgFBA prev (c :: cs) =
      (if isNonZeroDigit c && boundaryPrev prev then
        match alt1Match cfgFBA c cs with
        | some (core, full, r) => some ⟨core, full, full.getLast?, r⟩
        | none =>
            match alt2Match cfgFBA c cs with
            | some (core, full, r) => some ⟨core, full, full.getLast?, r⟩
            | none => none
      else none) := rfl

/-- Invariant of the pass-B scan over an all-years line: every maximal digit
run strictly beyond the current leading run has length 4, and the leading
run is empty, a whole length-4 run, or a suffix of a run (so `\b` fails). -/
def ScanOk (prev : Option Char) (cs : List Char) : Prop :=
  (∀ r ∈ digitRuns (cs.dropWhile Char.isDigit), r.length = 4) ∧
  ((cs.takeWhile Char.isDigit).length = 0 ∨
   (cs.takeWhile Char.isDigit).length = 4 ∨
   (boundaryPrev prev = false ∧ (cs.takeWhile Char.isDigit).length ≤ 4))

theorem scanOk_of_runs (prev : Option Char) (cs : List Char)
    (h : ∀ r ∈ digitRuns cs, r.length = 4) : ScanOk prev cs := by
  by_cases ht : cs.takeWhile Char.isDigit = []
  · refine ⟨?_, Or.inl (by rw [ht]; rfl)⟩
    rw [dropWhile_of_takeWhile_nil _ _ ht]
    exact h
  · have hsplit := digitRuns_split cs ht
    refine ⟨?_, Or.inr (Or.inl ?_)⟩
    · intro r hr
      exact h r (hsplit ▸ List.mem_cons_of_mem _ hr)
    · exact h _ (hsplit ▸ List.mem_cons_self _ _)

theorem scanOk_step (prev : Option Char) (c : Char) (cs : List Char)
    (h : ScanOk prev (c :: cs)) : ScanOk (some c) cs := by
  obtain ⟨h1, h2⟩ := h
  by_cases hc : c.isDigit = true
  · rw [List.takeWhile_cons_of_pos hc] at h2
    rw [List.dropWhile_cons_of_pos hc] at h1
    simp only [List.length_cons] at h2
    refine ⟨h1, Or.inr (Or.inr ⟨?_, ?_⟩)⟩
    · show boundaryPrev (some c) = false
      simp [boundaryPrev, digit_jsWord c hc]
    · rcases h2 with h2 | h2 | ⟨_, h2⟩ <;> omega
  · have hc' : c.isDigit = false := by revert hc; cases c.isDigit <;> simp
    rw [List.dropWhile_cons_of_neg (by simp [hc'])] at h1
    rw [digitRuns_cons_nondigit c cs hc'] at h1
    exact scanOk_of_runs (some c) cs h1

theorem matchGroupedAt_fba_none (prev : Option Char) (c : Char) (cs : List Char)
    (h : ScanOk prev (c :: cs)) : matchGroupedAt cfgFBA prev (c :: cs) = none := by
  rw [matchGroupedAt_fba_eq]
  by_cases hnz : isNonZeroDigit c = true
  · have hc : c.isDigit = true := by
      have h0 := hnz
      unfold isNonZeroDigit at h0
      simp only [Bool.and_eq_true] at h0
      exact h0.1
    obtain ⟨h1, h2⟩ := h
    rw [List.takeWhile_cons_of_pos hc] at h2
    simp only [List.length_cons] at h2
    by_cases hbp : boundaryPrev prev = true
    · have h3 : (cs.takeWhile Char.isDigit).length = 3 := by
        rcases h2 with h2 | h2 | ⟨hb, _⟩
        · omega
        · omega
        · rw [hbp] at hb; cases hb
      obtain ⟨d2, t2, rfl, hd2, hl2⟩ := takeWhile_succ _ _ _ h3
      obtain ⟨d3, t3, rfl, hd3, hl3⟩ := takeWhile_succ _ _ _ hl2
      obtain ⟨d4, t4, rfl, hd4, hl4⟩ := takeWhile_succ _ _ _ hl3
      rw [alt1Match_fba_none c d2 d3 d4 t4 hd2 hd3 hd4,
        alt2Match_fba_none c _ h3]
      simp [hnz, hbp]
    · have hbp' : boundaryPrev prev = false := by
        revert hbp; cases boundaryPrev prev <;> simp
      simp [hbp']
  · simp [hnz]

theorem scanGrouped_fba_nil (fuel : ℕ) :
    ∀ (prev : Option Char) (cs : List Char), ScanOk prev cs →
      scanGrouped cfgFBA fuel prev cs = [] := by
  induction fuel with
  | zero => intro prev cs _; rfl
  | succ n ih =>
      intro prev cs h
      cases cs with
      | nil => rfl
      | cons c cs =>
          rw [show scanGrouped cfgFBA (n + 1) prev (c :: cs) =
              (match matchGroupedAt cfgFBA prev (c :: cs) with
               | some m => (m.core, m.full) :: scanGrouped cfgFBA n m.last m.rest
               | none => scanGrouped cfgFBA n (some c) cs) from rfl]
          rw [matchGroupedAt_fba_none prev c cs h]
          exact ih (some c) cs (scanOk_step prev c cs h)

theorem groupedMatches_fba_nil (cs : List Char)
    (h : ∀ r ∈ digitRuns cs, r.length = 4) : groupedMatches cfgFBA cs = [] :=
  scanGrouped_fba_nil cs.length none cs (scanOk_of_runs none cs h)

theorem passACands_nil (lns : List (List Char))
    (h : ∀ ln ∈ lns, ln.contains '$' = false) : passACands lns = [] := by
  unfold passACands
  rw [List.flatMap_eq_nil_iff]
  intro ln hln
  rw [h ln hln]
  simp

theorem passBCands_nil (lns : List (List Char))
    (h : ∀ ln ∈ lns, ∀ r ∈ digitRuns ln, r.length = 4) : passBCands lns = [] := by
  unfold passBCands
  rw [List.flatMap_eq_nil_iff]
  intro idx hidx
  have hg : groupedMatches cfgFBA (lns.getD idx []) = [] := by
    by_cases hlt : idx < lns.length
    · have hmem : lns.getD idx [] ∈ lns := by
        rw [List.getD_eq_getElem lns [] hlt]
        exact List.getElem_mem hlt
      exact groupedMatches_fba_nil _ (h _ hmem)
    · rw [List.getD_eq_default lns [] (Nat.le_of_not_lt hlt)]
      rfl
  dsimp only
  rw [hg]
  simp

set_option maxHeartbeats 1000000 in
/-- C8: a text whose (normalized, trimmed) lines carry no `$` and whose
maximal digit runs are all bare 4-digit year tokens in 1900–2099 yields no
amount: pass A needs a `$` on the line, and pass B's grouped-or-long regex
cannot match such a line, so the candidate list stays empty. -/
theorem c8_year_tokens_rejected (text : String)
    (h : ∀ ln ∈ fbaLines text.data, ln.contains '$' = false ∧
      ∀ r ∈ digitRuns ln, r.length = 4 ∧
        1900 ≤ natOfDigits r ∧ natOfDigits r ≤ 2099) :
    findBestAmount text = none := by
  unfold findBestAmount findBestAmountL
  by_cases he : text.data.isEmpty = true
  · simp [he]
  · have hA : passACands (fbaLines text.data) = [] :=
      passACands_nil _ (fun ln hln => (h ln hln).1)
    have hB : passBCands (fbaLines text.data) = [] :=
      passBCands_nil _ (fun ln hln r hr => ((h ln hln).2 r hr).1)
    simp [he, hA, hB]

set_option maxHeartbeats 2000000 in
/-- C8 witness: spec scenario 5's caption `año 2024 factura 1999` satisfies
the year-only hypothesis and indeed produces no amount. -/
theorem c8_year_tokens_rejected_witness :
    (∀ ln ∈ fbaLines ("año 2024 factura 1999" : String).data,
      ln.contains '$' = false ∧
      ∀ r ∈ digitRuns ln, r.length = 4 ∧
        1900 ≤ natOfDigits r ∧ natOfDigits r ≤ 2099) ∧
    findBestAmount "año 2024 factura 1999" = none :=
  ⟨by decide, c8_year_tokens_rejected _ (by decide)⟩

end WA
